import Mathlib

/-!
Verification of the `interlinker` engine-v2 linking pipeline
(`src/interlinker/engine_v2/`), shallowly embedded in Lean 4.

Modelling conventions:
* Python `float` arithmetic is modelled exactly: configuration scalars and
  anchor scores as `ℚ`, ranking/feature values (which involve `exp`, `log`,
  `sqrt`) as `ℝ`.
* Python `dict`s are modelled as insertion-ordered association lists with
  an update-in-place operation mirroring `d[k] = v`; `dict.get(k, d)`
  becomes an association-list lookup with the same default.
* Python `set`s that are used only for membership tests are modelled as
  lists; deduplicating `set.add` is modelled by append-if-absent.
* `str.lower` is modelled per character; it is one-to-many exactly as in
  Python, where U+0130 lowercases to the two code points U+0069 U+0307.
  Other characters are lowered with `Char.toLower` (the identity outside
  ASCII letters), which agrees with Python on every string appearing in
  the concrete theorems below.
* The regular expressions of the source (`[\w']+`, the capitalized-phrase
  entity heuristic, and literal `re.escape`d substring search) are encoded
  as recursive scanners.  `\w` is modelled by the ASCII word characters.
-/

/-- Python `str.lower` for one character.  U+0130 (LATIN CAPITAL LETTER I
WITH DOT ABOVE) expands to "i" followed by COMBINING DOT ABOVE; everything
else lowers one-to-one. -/
def pyLowerChar (c : Char) : List Char :=
  if c = 'İ' then ['i', '̇'] else [c.toLower]

/-- Python `str.lower` on a list of characters. -/
def pyLowerList (s : List Char) : List Char :=
  s.flatMap pyLowerChar

/-- Python `str.lower` on a string. -/
def pyLower (s : String) : String :=
  ⟨pyLowerList s.data⟩

/-- Python `str.strip()`: remove leading and trailing whitespace. -/
def pyStripList (s : List Char) : List Char :=
  ((s.dropWhile Char.isWhitespace).reverse.dropWhile Char.isWhitespace).reverse

/-- Python `str.strip()` on a string. -/
def pyStrip (s : String) : String :=
  ⟨pyStripList s.data⟩

/-- Python `str.split()` (and equally `[w for w in re.split(r"\s+", s.strip()) if w]`):
split on whitespace runs, dropping empty pieces. -/
def pySplitWsList : List Char → List (List Char)
  | [] => []
  | c :: rest =>
    if c.isWhitespace then pySplitWsList rest
    else
      match pySplitWsList rest with
      | [] => [[c]]
      | w :: ws =>
        -- `c` extends the first word unless a whitespace character separated them;
        -- track that by looking at `rest` directly.
        match rest with
        | [] => [[c]]
        | d :: _ => if d.isWhitespace then [c] :: w :: ws else (c :: w) :: ws

/-- Python `str.split()` on a string, yielding strings. -/
def pySplitWs (s : String) : List String :=
  (pySplitWsList s.data).map fun w => ⟨w⟩

/-- Least index `j ≥ i` at which `pat` matches, walking the suffix
`txt.drop i` structurally (Python `re.search` of an escaped literal from
offset `i`; an empty pattern matches immediately). -/
def listFindFromAux (pat : List Char) : List Char → ℕ → Option ℕ
  | [], i => if pat = [] then some i else none
  | c :: rest, i =>
    if pat.isPrefixOf (c :: rest) then some i else listFindFromAux pat rest (i + 1)

/-- Least index `j ≥ i` at which `pat` matches in `txt`, if any. -/
def listFindFrom (pat txt : List Char) (i : ℕ) : Option ℕ :=
  listFindFromAux pat (txt.drop i) i

/-- Python `needle in haystack` substring containment. -/
def pySubstr (needle haystack : String) : Bool :=
  (listFindFrom needle.data haystack.data 0).isSome

/-- Iterating matches, on fuel: each step resumes at the end of the match
found. -/
def listFindIterAux (pat txt : List Char) : ℕ → ℕ → List (ℕ × ℕ)
  | _, 0 => []
  | i, fuel + 1 =>
    match listFindFrom pat txt i with
    | none => []
    | some j => (j, j + pat.length) :: listFindIterAux pat txt (j + pat.length) fuel

/-- All spans produced by `re.finditer` of an escaped literal pattern:
non-overlapping, leftmost first, resuming at the end of each match.  A
non-empty pattern advances the start index by at least one per match, so
`txt.length + 1` steps of fuel are never exhausted. -/
def listFindIter (pat txt : List Char) (i : ℕ) : List (ℕ × ℕ) :=
  if pat = [] then [] else listFindIterAux pat txt i (txt.length + 1)

/-- Python slice `l[:n]`: a negative bound counts from the end, clamped at 0. -/
def pyTake (l : List α) (n : ℤ) : List α :=
  l.take (if 0 ≤ n then n.toNat else (l.length - (-n).toNat))

/-- Python `int(q)` on a float/rational: truncation toward zero. -/
def pyTrunc (q : ℚ) : ℤ :=
  if 0 ≤ q then ⌊q⌋ else ⌈q⌉

/-- Association-list lookup, `d.get(k, default)`. -/
def alGet (l : List (String × α)) (k : String) (dflt : α) : α :=
  match l.find? (fun p => p.1 = k) with
  | some p => p.2
  | none => dflt

/-- Association-list membership, `k in d`. -/
def alMem (l : List (String × α)) (k : String) : Bool :=
  (l.find? (fun p => p.1 = k)).isSome

/-- `d[k] = v` on an insertion-ordered dict: update in place, else append. -/
def alSet (l : List (String × α)) (k : String) (v : α) : List (String × α) :=
  match l with
  | [] => [(k, v)]
  | p :: rest => if p.1 = k then (k, v) :: rest else p :: alSet rest k v

/-- Truthiness of an optional string (`None` and `""` are falsy in Python). -/
def pyTruthy (o : Option String) : Bool :=
  match o with
  | none => false
  | some s => s ≠ ""

/-- `l.add x` on a Python set modelled as an insertion-ordered list. -/
def setAdd [DecidableEq α] (l : List α) (x : α) : List α :=
  if x ∈ l then l else l ++ [x]

/-! ### Data model (`engine_v2/types.py`)

The open `metadata` mapping of a `Page` is modelled as a typed record of
optional fields, one per key the engine reads; `metadata.get(key)` becomes
the field access, `metadata.get(key, dflt)` the access with `getD`.
Boolean metadata flags are read for truthiness only, so they are `Bool`
(absent = `false`).  List-valued keys default to `[]`. -/

/-- One element of `metadata["entities"]`: a dict with a `name` and an
optional `type` (defaulting to `"generic"`). -/
structure EntityRec where
  name : String
  etype : Option String
deriving DecidableEq, Repr

/-- Typed view of the open `Page.metadata` dictionary. -/
structure Metadata where
  authority_score : Option ℚ := none
  inlinks : Option ℚ := none
  click_depth : Option ℚ := none
  taxonomy : List String := []
  entities : Option (List EntityRec) := none
  brand : Option String := none
  head_terms : List String := []
  content_score : Option ℚ := none
  has_schema : Bool := false
  status_code : Option ℤ := none
  outbound_links : List String := []
  is_pillar : Bool := false
  is_hub : Bool := false
  is_money_page : Bool := false
  is_redirect : Bool := false
  is_paginated_duplicate : Bool := false
  blocked : Bool := false
  is_login : Bool := false
  is_cart : Bool := false
  is_conversion_page : Bool := false
  is_reference : Bool := false
  parent_id : Option String := none
deriving DecidableEq, Repr

/-- `types.Page`.  `published_at` is an optional ISO-8601 string in the
source; it is modelled as the number of days it parses to (`none` covering
both a missing and a malformed timestamp, which the code treats alike).
The field `type` is named `ptype` (`type` is reserved in Lean). -/
structure Page where
  url : String
  title : String
  html : String
  text : String
  lang : Option String
  tags : List String
  ptype : String
  published_at : Option ℤ
  canonical : Option String
  noindex : Bool
  nofollow : Bool
  metadata : Metadata := {}
deriving DecidableEq, Repr

/-- `types.Anchor`.  The source field `end` is named `endPos` (`end` is
reserved in Lean). -/
structure Anchor where
  text : String
  start : ℕ
  endPos : ℕ
  variant : String
deriving DecidableEq, Repr

/-- `types.Suggestion`. -/
structure Suggestion where
  target_url : String
  reason : String
  score : ℝ
  anchors : List Anchor
  placement_hint : String
  rel : String
  risk_flags : List String

/-! ### Configuration (`engine_v2/config.py`)

`EngineConfig.raw` is a dictionary with optional keys; it is modelled as a
record of optional fields.  Each `config.get(key, dflt)` in the source
becomes `(cfg.key).getD dflt` with the same per-call-site default. -/

/-- The raw engine configuration dictionary. -/
structure EngineConfig where
  max_candidates : Option ℤ := none
  base_links_per_page : Option ℤ := none
  max_links_per_page : Option ℤ := none
  max_anchors_per_target : Option ℤ := none
  score_floor : Option ℚ := none
  allow_cross_language : Option Bool := none
  product_wordcount_min : Option ℚ := none
  quality_wordcount_norm : Option ℚ := none
  title_bm25_norm : Option ℚ := none
  body_bm25_norm : Option ℚ := none
  max_inlinks : Option ℚ := none
  max_click_depth : Option ℚ := none
  freshness_half_life_days : Option ℚ := none
  weights : List (String × ℚ) := []
  penalties : List (String × ℚ) := []
deriving DecidableEq, Repr

/-- `EngineConfig.feature_weight`: `weights.get(feature, 0.0)`. -/
def feature_weight (cfg : EngineConfig) (feature : String) : ℚ :=
  alGet cfg.weights feature 0

/-- `EngineConfig.penalty_weight`: `penalties.get(feature, 0.0)`. -/
def penalty_weight (cfg : EngineConfig) (feature : String) : ℚ :=
  alGet cfg.penalties feature 0

/-- `config.DEFAULTS`, as produced by `load_config(None)` (no YAML file:
the defaults verbatim). -/
def defaultConfig : EngineConfig where
  max_candidates := some 120
  base_links_per_page := some 3
  max_links_per_page := some 12
  max_anchors_per_target := some 2
  weights :=
    [("f_title_bm25", 14/10), ("f_body_bm25", 11/10), ("f_semantic", 12/10),
     ("f_entity_overlap", 15/10), ("f_tag_overlap", 9/10),
     ("f_taxonomy_distance", 7/10), ("f_authority", 8/10),
     ("f_click_depth", 7/10), ("f_conversion_intent", 6/10),
     ("f_freshness", 4/10), ("f_lang_match", 5/10), ("f_quality", 8/10)]
  penalties := [("f_duplicate_risk", 25/10), ("f_lang_mismatch", 1)]

/-- `config.load_config(None)`: no path is given, so the result is exactly
the defaults (the YAML branch is never taken). -/
def load_config : EngineConfig := defaultConfig

/-! ### Text statistics (`engine_v2/text.py`) -/

/-- The ASCII reading of the token pattern `[\w']+`: word characters plus
apostrophe. -/
def isTokenChar (c : Char) : Bool :=
  c.isAlphanum || c = '_' || c = '\''

/-- Maximal runs of token characters in `s` (the `findall` of `[\w']+`). -/
def tokenRuns : List Char → List (List Char)
  | [] => []
  | c :: rest =>
    if isTokenChar c then
      match tokenRuns rest with
      | [] => [[c]]
      | w :: ws =>
        match rest with
        | [] => [[c]]
        | d :: _ => if isTokenChar d then (c :: w) :: ws else [c] :: w :: ws
    else tokenRuns rest

/-- `text.tokenize`: lower-cased word tokens. -/
def tokenize (text : String) : List String :=
  (tokenRuns text.data).map fun w => pyLower ⟨w⟩

/-- `counter[k] += 1` on a `Counter` modelled as an insertion-ordered
association list. -/
def alIncr (l : List (String × ℕ)) (k : String) : List (String × ℕ) :=
  match l with
  | [] => [(k, 1)]
  | p :: rest => if p.1 = k then (k, p.2 + 1) :: rest else p :: alIncr rest k

/-- `text.term_frequencies`: `Counter(tokens)`. -/
def term_frequencies (tokens : List String) : List (String × ℕ) :=
  tokens.foldl alIncr []

/-- `text.document_frequencies`. -/
def document_frequencies (documents : List (List (String × ℕ))) : List (String × ℕ) :=
  documents.foldl (fun df doc => doc.foldl (fun df p => alIncr df p.1) df) []

/-- `text.bm25` (Okapi BM25; `avg_doc_length or 1.0` guards the zero
average). -/
noncomputable def bm25 (query_tokens : List String) (document_tf : List (String × ℕ))
    (document_length : ℕ) (avg_doc_length : ℝ) (df : List (String × ℕ))
    (total_docs : ℕ) (k1 : ℝ := 3/2) (b : ℝ := 3/4) : ℝ :=
  query_tokens.foldl
    (fun score term =>
      if alMem document_tf term then
        let freq : ℝ := (alGet document_tf term 0 : ℕ)
        let idf : ℝ :=
          Real.log (1 + ((total_docs : ℝ) - (alGet df term 0 : ℕ) + 1/2) /
            ((alGet df term 0 : ℕ) + 1/2))
        let denom : ℝ := freq + k1 * (1 - b + b * (document_length : ℝ) /
          (if avg_doc_length = 0 then 1 else avg_doc_length))
        score + idf * freq * (k1 + 1) / denom
      else score)
    0

/-- `text.cosine_similarity` on sparse term-frequency counters. -/
noncomputable def cosine_similarity (counter_a counter_b : List (String × ℕ)) : ℝ :=
  if counter_a = [] ∨ counter_b = [] then 0
  else
    let dot : ℝ := counter_a.foldl
      (fun acc p => acc + (p.2 : ℝ) * (alGet counter_b p.1 0 : ℕ)) 0
    let norm_a := Real.sqrt (counter_a.foldl (fun acc p => acc + (p.2 : ℝ) * p.2) 0)
    let norm_b := Real.sqrt (counter_b.foldl (fun acc p => acc + (p.2 : ℝ) * p.2) 0)
    if norm_a = 0 ∨ norm_b = 0 then 0 else dot / (norm_a * norm_b)

/-! ### Corpus context (`engine_v2/context.py`) -/

/-- `context.CorpusContext`. -/
structure CorpusContext where
  title_tf : List (String × List (String × ℕ))
  body_tf : List (String × List (String × ℕ))
  title_df : List (String × ℕ)
  body_df : List (String × ℕ)
  avg_title_len : ℝ
  avg_body_len : ℝ
  page_map : List (String × Page)

/-- `context.build_corpus_context`. -/
noncomputable def build_corpus_context (corpus : List Page) : CorpusContext :=
  let step := fun (acc : List (String × List (String × ℕ)) ×
      List (String × List (String × ℕ)) × List (String × Page) ×
      List (List (String × ℕ)) × List (List (String × ℕ))) (page : Page) =>
    let title_counter := term_frequencies (tokenize page.title)
    let body_counter := term_frequencies (tokenize page.text)
    (alSet acc.1 page.url title_counter,
     alSet acc.2.1 page.url body_counter,
     alSet acc.2.2.1 page.url page,
     acc.2.2.2.1 ++ [title_counter],
     acc.2.2.2.2 ++ [body_counter])
  let res := corpus.foldl step ([], [], [], [], [])
  let title_counters := res.2.2.2.1
  let body_counters := res.2.2.2.2
  { title_tf := res.1
    body_tf := res.2.1
    title_df := if title_counters = [] then [] else document_frequencies title_counters
    body_df := if body_counters = [] then [] else document_frequencies body_counters
    avg_title_len :=
      if title_counters = [] then 1
      else ((title_counters.map (fun c => c.foldl (fun a p => a + p.2) 0)).sum : ℕ) /
        (title_counters.length : ℝ)
    avg_body_len :=
      if body_counters = [] then 1
      else ((body_counters.map (fun c => c.foldl (fun a p => a + p.2) 0)).sum : ℕ) /
        (body_counters.length : ℝ)
    page_map := res.2.2.1 }

/-! ### Entity extraction (`engine_v2/entities.py`)

The heuristic regex `\b([A-Z][a-zA-Z0-9\-']+(?:\s+[A-Z][a-zA-Z0-9\-']+)*)\b`
is modelled by a left-to-right scanner: a capitalized word is an ASCII
capital followed by at least one character of the class, with a word
boundary on each side (backtracking over the trailing `\b` trims trailing
hyphens/apostrophes); sequences of such words joined by whitespace are
taken greedily. -/

/-- The character class `[a-zA-Z0-9\-']`. -/
def isEntityChar (c : Char) : Bool :=
  c.isAlphanum || c = '-' || c = '\''

/-- Python word characters (`\w`), restricted to ASCII. -/
def isWordChar (c : Char) : Bool :=
  c.isAlphanum || c = '_'

/-- Length of a capitalized word starting at `i`, after resolving the
trailing word boundary, if one matches there. -/
def capWordLen (txt : List Char) (i : ℕ) : Option ℕ :=
  match txt.drop i with
  | [] => none
  | c :: rest =>
    if 'A' ≤ c ∧ c ≤ 'Z' then
      let runTail := rest.takeWhile isEntityChar
      -- the trailing `\b` backtracks over characters that are not `\w`
      let trimmed := (runTail.reverse.dropWhile fun d => d = '-' || d = '\'').reverse
      if trimmed = [] then none
      else
        match txt.drop (i + 1 + trimmed.length) with
        | [] => some (1 + trimmed.length)
        | d :: _ => if isWordChar d then none else some (1 + trimmed.length)
    else none

/-- Length matched by `(?:\s+[A-Z][a-zA-Z0-9\-']+)*\b` continuing at `i`. -/
def capSeqLen (txt : List Char) (i : ℕ) (fuel : ℕ) : ℕ :=
  match fuel with
  | 0 => 0
  | fuel + 1 =>
    let ws := ((txt.drop i).takeWhile Char.isWhitespace).length
    if ws = 0 then 0
    else
      match capWordLen txt (i + ws) with
      | none => 0
      | some w => ws + w + capSeqLen txt (i + ws + w) fuel

/-- All matches of the capitalized-phrase regex, scanning left to right and
resuming at the end of each match (`re.findall`). -/
def capMatches (txt : List Char) (i : ℕ) (fuel : ℕ) : List (List Char) :=
  match fuel with
  | 0 => []
  | fuel + 1 =>
    if i ≥ txt.length then []
    else
      let boundary := i = 0 ∨ ¬ isWordChar (txt.getD (i - 1) ' ')
      match capWordLen txt i with
      | some w =>
        if boundary then
          let total := w + capSeqLen txt (i + w) txt.length
          ((txt.drop i).take total) :: capMatches txt (i + total) fuel
        else capMatches txt (i + 1) fuel
      | none => capMatches txt (i + 1) fuel

/-- `entities.get_entities`: metadata entities if present and non-empty,
else the capitalized-phrase heuristic (phrases of more than 6 words are
skipped). -/
def get_entities (page : Page) : List EntityRec :=
  match page.metadata.entities with
  | some (e :: es) =>
    (e :: es).map fun r => { name := r.name, etype := some (r.etype.getD "generic") }
  | _ =>
    (capMatches page.text.data 0 (page.text.data.length + 1)).filterMap fun w =>
      let clean := pyStrip ⟨w⟩
      if (pySplitWs clean).length > 6 then none
      else some { name := clean, etype := some "generic" }

/-- The entity-type weight table of `entities.entity_overlap`. -/
def entityTypeWeight (etype : Option String) : ℚ :=
  alGet [("product", 1), ("brand", 8/10), ("category", 6/10), ("generic", 3/10)]
    (etype.getD "generic") (3/10)

/-- `entities.entity_overlap`. -/
def entity_overlap (source target : Page) : ℚ :=
  let source_entities := get_entities source
  let target_entities := get_entities target
  if source_entities = [] ∨ target_entities = [] then 0
  else
    let target_values : List (String × ℚ) :=
      target_entities.foldl
        (fun acc e => alSet acc (pyLower e.name) (entityTypeWeight e.etype)) []
    let step := fun (acc : ℚ × ℚ) (e : EntityRec) =>
      let weight := entityTypeWeight e.etype
      let matched :=
        if alMem target_values (pyLower e.name) then
          acc.2 + max weight (alGet target_values (pyLower e.name) 0)
        else acc.2
      (acc.1 + weight, matched)
    let res := source_entities.foldl step (0, 0)
    if res.1 = 0 then 0 else min (res.2 / res.1) 1

/-- `entities.first_matching_entity`. -/
def first_matching_entity (source target : Page) : Option (String × String) :=
  let lookup : List (String × String) :=
    (get_entities target).foldl
      (fun acc e => alSet acc (pyLower e.name) (e.etype.getD "generic")) []
  (get_entities source).findSome? fun e =>
    if alMem lookup (pyLower e.name) then
      some (e.name, alGet lookup (pyLower e.name) "generic")
    else none

/-! ### Anchor engine (`engine_v2/anchors.py`) -/

/-- `anchors._STOPWORDS`. -/
def STOPWORDS : List String :=
  ["the", "and", "or", "to", "of", "a", "in", "for", "on", "with", "at",
   "by", "an", "be", "is"]

/-- `anchors._VARIANT_PRIORITY`. -/
def VARIANT_PRIORITY : List (String × ℚ) :=
  [("entity", 1), ("exact", 95/100), ("partial", 8/10), ("brand", 75/100),
   ("tag", 7/10), ("generic", 6/10)]

/-- `anchors._valid_phrase`. -/
def valid_phrase (phrase variant : String) : Bool :=
  let words := pySplitWs phrase
  if variant = "entity" ∨ variant = "brand" ∨ variant = "tag" then
    1 ≤ words.length ∧ words.length ≤ 5
  else
    1 < words.length ∧ words.length ≤ 7

/-- `anchors._valid_anchor_text` (the `re.split(r"\s+", text.strip())`
with empty pieces dropped is whitespace splitting). -/
def valid_anchor_text (text variant : String) : Bool :=
  let words := pySplitWs text
  if variant = "entity" ∨ variant = "brand" ∨ variant = "tag" then
    words.length = 1 ∧ ¬ pyLower (words.headD "") ∈ STOPWORDS
  else if words.length < 2 ∨ words.length > 7 then false
  else ¬ words.all fun word => pyLower word ∈ STOPWORDS

/-- `anchors._head_terms`. -/
def head_terms (title : String) : String :=
  let words := pySplitWs title
  if words.length ≤ 4 then title else " ".intercalate (words.take 4)

/-- `anchors._tail_terms`. -/
def tail_terms (title : String) : String :=
  let words := pySplitWs title
  if words.length ≤ 4 then title else " ".intercalate (words.reverse.take 3).reverse

/-- `candidate.replace("-", " ")`. -/
def pyReplaceDash (s : String) : String :=
  ⟨s.data.map fun c => if c = '-' then ' ' else c⟩

/-- The tag loop of `extract_candidate_anchors` (anchors.py lines 64-73):
the `(phrase, "tag")` pairs added for the target's tags.  A tag survives
exactly when its stripped form is non-empty and occurs, lower-cased, in
the lower-cased title or body of the TARGET page. -/
def tag_phrases (target : Page) : List (String × String) :=
  target.tags.filterMap fun tag =>
    let candidate := pyStrip tag
    if candidate = "" then none
    else
      let lowered_candidate := pyLower candidate
      if ¬ pySubstr lowered_candidate (pyLower target.title) ∧
          ¬ pySubstr lowered_candidate (pyLower target.text) then none
      else some (pyReplaceDash candidate, "tag")

/-- The full phrase-set construction of `extract_candidate_anchors`
(title/partials, entity match, head terms, brand, tags), in source order.
The Python `set` is modelled as an insertion-ordered deduplicated list. -/
def raw_phrases (source target : Page) : List (String × String) :=
  let title := pyStrip target.title
  let titlePhrases :=
    if title = "" then []
    else
      [(title, "exact")] ++
      (if head_terms title = "" then [] else [(head_terms title, "partial")]) ++
      (if tail_terms title = "" then [] else [(tail_terms title, "partial")])
  let entityPhrases :=
    match first_matching_entity source target with
    | none => []
    | some (name, t) => [(name, if alMem VARIANT_PRIORITY t then t else "entity")]
  let headTermPhrases := target.metadata.head_terms.map fun term => (term, "partial")
  let brandPhrases :=
    if pyTruthy target.metadata.brand then
      [(target.metadata.brand.getD "", "brand")]
    else []
  (titlePhrases ++ entityPhrases ++ headTermPhrases ++ brandPhrases ++
    tag_phrases target).foldl setAdd []

/-- The validated, re-stripped phrase set (`normalized_phrases`). -/
def normalized_phrases (source target : Page) : List (String × String) :=
  ((raw_phrases source target).filterMap fun pv =>
    let cleaned := pyStrip pv.1
    if cleaned = "" then none
    else if ¬ valid_phrase cleaned pv.2 then none
    else some (cleaned, pv.2)).foldl setAdd []

/-- `anchors.extract_candidate_anchors`.  The unused `config` parameter of
the source is omitted.  Matching happens in the LOWER-CASED source text;
the span is then sliced out of the original text (Python slicing clamps
out-of-range bounds). -/
def extract_candidate_anchors (source target : Page) : List Anchor :=
  let phrases := normalized_phrases source target
  if phrases = [] then []
  else
    let lowered := pyLowerList source.text.data
    phrases.flatMap fun pv =>
      (listFindIter (pyLower pv.1).data lowered 0).filterMap fun span =>
        let actual_text : String := ⟨(source.text.data.drop span.1).take (span.2 - span.1)⟩
        if valid_anchor_text actual_text pv.2 then
          some { text := actual_text, start := span.1, endPos := span.2, variant := pv.2 }
        else none

/-- `anchors._anchor_score`. -/
def anchor_score (anchor : Anchor) (text_length : ℕ) : ℚ :=
  let variant_weight := alGet VARIANT_PRIORITY anchor.variant (1/2)
  let position_factor := 1 - (anchor.start : ℚ) / (text_length : ℚ)
  let length := (pySplitWs anchor.text).length
  let length_factor := max 0 (1 - |(length : ℚ) - 4| / 10)
  variant_weight * (7/10 + 2/10 * position_factor + 1/10 * length_factor)

/-- `anchor.text.strip().lower()`, the normalization used by
`select_anchors`. -/
def anchorNorm (a : Anchor) : String :=
  pyLower (pyStrip a.text)

/-- Stable insertion keeping the accumulated list sorted descending by
`key`; an element is placed after every element with a key `≥` its own,
which reproduces the stability of Python's `sorted(..., reverse=True)`. -/
def stableInsertGE [LinearOrder β] (key : α → β) : List α → α → List α
  | [], x => [x]
  | y :: ys, x => if key x ≤ key y then y :: stableInsertGE key ys x else x :: y :: ys

/-- Python `sorted(l, key=key, reverse=True)`. -/
def pySortDescBy [LinearOrder β] (key : α → β) (l : List α) : List α :=
  l.foldl (stableInsertGE key) []

/-- Stable insertion keeping the list sorted ascending by `key`. -/
def stableInsertLE [LinearOrder β] (key : α → β) : List α → α → List α
  | [], x => [x]
  | y :: ys, x => if key y ≤ key x then y :: stableInsertLE key ys x else x :: y :: ys

/-- Python `sorted(l, key=key)` / `l.sort(key=key)`. -/
def pySortAscBy [LinearOrder β] (key : α → β) (l : List α) : List α :=
  l.foldl (stableInsertLE key) []

/-- Option-valued association lookup. -/
def alFind? [DecidableEq κ] (l : List (κ × α)) (k : κ) : Option α :=
  (l.find? fun p => p.1 = k).map (·.2)

/-- Keyed dict update (`d[k] = v`) for non-string keys. -/
def alSetK [DecidableEq κ] (l : List (κ × α)) (k : κ) (v : α) : List (κ × α) :=
  match l with
  | [] => [(k, v)]
  | p :: rest => if p.1 = k then (k, v) :: rest else p :: alSetK rest k v

/-- The per-span best-variant table and ranking of `select_anchors`:
retain the highest-scoring anchor per `(start, end)` span (strict `>`
keeps the first on ties), then sort descending by score. -/
def select_ranked (source : Page) (anchors : List Anchor) : List (ℚ × Anchor) :=
  let text_length := max source.text.data.length 1
  let scored := anchors.foldl
    (fun sc a =>
      let score := anchor_score a text_length
      match alFind? sc (a.start, a.endPos) with
      | none => alSetK sc (a.start, a.endPos) (score, a)
      | some prev => if score > prev.1 then alSetK sc (a.start, a.endPos) (score, a) else sc)
    []
  pySortDescBy (fun p => p.1) (scored.map (·.2))

/-- State of the first greedy pass of `select_anchors`. -/
structure Pass1State where
  selected : List Anchor
  used_texts : List String
  exact_count : ℕ
deriving DecidableEq, Repr

/-- First greedy pass of `select_anchors`: take ranked anchors up to the
limit, skipping used normalized texts and capping `exact` picks. -/
def select_pass1 (limit exact_allowed : ℤ) :
    List (ℚ × Anchor) → Pass1State → Pass1State
  | [], st => st
  | (_, a) :: rest, st =>
    if (st.selected.length : ℤ) ≥ limit then st
    else if anchorNorm a ∈ st.used_texts then select_pass1 limit exact_allowed rest st
    else if a.variant = "exact" ∧ (st.exact_count : ℤ) ≥ exact_allowed then
      select_pass1 limit exact_allowed rest st
    else
      select_pass1 limit exact_allowed rest
        { selected := st.selected ++ [a]
          used_texts := st.used_texts ++ [anchorNorm a]
          exact_count := st.exact_count + if a.variant = "exact" then 1 else 0 }

/-- State of the second (diversity) pass of `select_anchors`. -/
structure Pass2State where
  selected : List Anchor
  used_texts : List String
  selected_variants : List String
deriving DecidableEq, Repr

/-- Second pass of `select_anchors`: try to add anchors whose variant is
not yet selected. -/
def select_pass2 (limit : ℤ) : List (ℚ × Anchor) → Pass2State → Pass2State
  | [], st => st
  | (_, a) :: rest, st =>
    if (st.selected.length : ℤ) ≥ limit then st
    else if a ∈ st.selected ∨ a.variant ∈ st.selected_variants then
      select_pass2 limit rest st
    else if anchorNorm a ∈ st.used_texts then select_pass2 limit rest st
    else
      select_pass2 limit rest
        { selected := st.selected ++ [a]
          used_texts := st.used_texts ++ [anchorNorm a]
          selected_variants := st.selected_variants ++ [a.variant] }

/-- The guard of the second pass: `len(selected) < limit` after the first
pass (this, and only this, decides whether the diversity pass runs). -/
def select_second_pass_triggered (source : Page) (anchors : List Anchor)
    (cfg : EngineConfig) : Bool :=
  let limit : ℤ := (cfg.max_anchors_per_target).getD 2
  let ranked := select_ranked source anchors
  let exact_allowed : ℤ := max 1 (pyTrunc ((limit : ℚ) * (4/10)))
  let st1 := select_pass1 limit exact_allowed ranked ⟨[], [], 0⟩
  decide ((st1.selected.length : ℤ) < limit)

/-- `anchors.select_anchors`.  The unused `target` parameter of the source
is omitted. -/
def select_anchors (source : Page) (anchors : List Anchor)
    (cfg : EngineConfig) : List Anchor :=
  if anchors = [] then []
  else
    let limit : ℤ := (cfg.max_anchors_per_target).getD 2
    let ranked := select_ranked source anchors
    let exact_allowed : ℤ := max 1 (pyTrunc ((limit : ℚ) * (4/10)))
    let st1 := select_pass1 limit exact_allowed ranked ⟨[], [], 0⟩
    let sel2 :=
      if (st1.selected.length : ℤ) < limit then
        (select_pass2 limit ranked
          ⟨st1.selected, st1.used_texts, (st1.selected.map (·.variant)).foldl setAdd []⟩).selected
      else st1.selected
    pySortAscBy (fun a => a.start) sel2

/-! ### Candidate generation (`engine_v2/candidates.py`) -/

/-- `p.startswith(s)`. -/
def pyStartsWith (p s : String) : Bool :=
  p.data.isPrefixOf s.data

/-- The query string of a URL: everything after the first `?`, up to a
fragment marker (`urllib.parse.urlparse(url).query`). -/
def urlQuery (url : String) : String :=
  match url.splitOn "?" with
  | [] => ""
  | [_] => ""
  | _ :: rest => ("?".intercalate rest).takeWhile (· ≠ '#')

/-- Parameter names of `urllib.parse.parse_qsl(query)`: pieces split on
`&`; pieces without `=` or with an empty value are dropped. -/
def parse_qsl_names (query : String) : List String :=
  (query.splitOn "&").filterMap fun piece =>
    match piece.splitOn "=" with
    | [] => none
    | [_] => none
    | n :: rest => if "=".intercalate rest = "" then none else some n

/-- `candidates._business_filter`. -/
def business_filter (source target : Page) : Bool :=
  if target.url = source.url then false
  else if target.noindex || target.nofollow then false
  else if pyTruthy target.canonical ∧ pyTruthy source.canonical ∧
      target.canonical = source.canonical then false
  else if target.metadata.is_login || target.metadata.is_cart then false
  else if (target.metadata.status_code.getD 200) ≥ 300 then false
  else if pySubstr "?" target.url then
    let params := (parse_qsl_names (urlQuery target.url)).map pyLower
    ¬ params.all fun param =>
      pyStartsWith "utm" param || pyStartsWith "ref" param || param = "replytocom"
  else true

/-- `candidates._language_factor`. -/
def language_factor (source target : Page) : ℚ :=
  if ¬ pyTruthy source.lang ∨ ¬ pyTruthy target.lang then 7/10
  else if source.lang = target.lang then 1
  else
    let bilingual := (source.tags.map pyLower).inter (target.tags.map pyLower)
    if bilingual ≠ [] then 6/10 else 1/10

/-- `candidates._prefer_review_targets`. -/
def prefer_review_targets (source target : Page) : ℚ :=
  if source.ptype ≠ "review" then 1
  else
    let title_lower := pyLower target.title
    if (target.ptype = "category" ∨ target.ptype = "review") ∧
        (pySubstr "best" title_lower ∨ pySubstr "top" title_lower ∨
         pySubstr "guide" title_lower) then 12/10
    else if target.ptype = "product" then 11/10
    else 1

/-- Distinct elements of a list (Python `set(l)`), insertion-ordered. -/
def pySet [DecidableEq α] (l : List α) : List α :=
  l.foldl setAdd []

/-- `candidates._compute_tag_overlap`. -/
def compute_tag_overlap (source target : Page) : ℚ :=
  let source_tags := pySet (source.tags.map pyLower)
  let target_tags := pySet (target.tags.map pyLower)
  if source_tags = [] ∨ target_tags = [] then 0
  else
    let intersection := (source_tags.filter (· ∈ target_tags)).length
    let union := (pySet (source_tags ++ target_tags)).length
    if union = 0 then 0 else (intersection : ℚ) / union

/-- The recall score of one candidate in `generate_candidates`. -/
noncomputable def recall_score (source candidate : Page) (context : CorpusContext)
    (total_docs : ℕ) : ℝ :=
  let query_title_tokens := tokenize source.title
  let query_body_tokens := tokenize source.text
  let query_body_tf := term_frequencies query_body_tokens
  let title_tf := alGet context.title_tf candidate.url []
  let body_tf := alGet context.body_tf candidate.url []
  let title_length := title_tf.foldl (fun a p => a + p.2) 0
  let body_length := body_tf.foldl (fun a p => a + p.2) 0
  let title_score := bm25 query_title_tokens title_tf
    (if title_length = 0 then 1 else title_length) context.avg_title_len
    context.title_df total_docs
  let body_score := bm25 query_body_tokens body_tf
    (if body_length = 0 then 1 else body_length) context.avg_body_len
    context.body_df total_docs
  let semantic := cosine_similarity query_body_tf body_tf
  let entity_score : ℝ := (entity_overlap source candidate : ℚ)
  let tag_overlap : ℝ := (compute_tag_overlap source candidate : ℚ)
  ((35/100 : ℝ) * min (title_score / 8) 1 + (35/100 : ℝ) * min (body_score / 12) 1 +
    (2/10 : ℝ) * semantic + (25/100 : ℝ) * entity_score + (15/100 : ℝ) * tag_overlap) *
    ((language_factor source candidate : ℚ) * (prefer_review_targets source candidate : ℚ) : ℚ)

/-- `candidates.generate_candidates`. -/
noncomputable def generate_candidates (source : Page) (corpus : List Page)
    (context : CorpusContext) (config : EngineConfig) : List Page :=
  let total_docs := if corpus.length = 0 then 1 else corpus.length
  let scored : List (ℝ × Page) := corpus.filterMap fun candidate =>
    if ¬ business_filter source candidate then none
    else
      let s := recall_score source candidate context total_docs
      if s ≤ 5/100 then none else some (s, candidate)
  let limit : ℤ := (config.max_candidates).getD 50
  (pyTake (pySortDescBy (fun p => p.1) scored) limit).map (·.2)

/-! ### Feature extraction (`engine_v2/features.py`) -/

/-- `features._clamp`. -/
noncomputable def fclamp (value : ℝ) (minimum : ℝ := 0) (maximum : ℝ := 1) : ℝ :=
  max (min value maximum) minimum

/-- `features._normalize`. -/
noncomputable def fnormalize (value scale : ℝ) : ℝ :=
  if scale = 0 then 0 else fclamp (value / scale)

/-- `datetime.now()` of `features._freshness_score`, modelled as a fixed
reference day; every claim under verification is independent of its
value. -/
def nowDays : ℤ := 20000

/-- `features._already_links`. -/
def already_links (source target : Page) : Bool :=
  let outbound := source.metadata.outbound_links
  if outbound = [] then false else target.url ∈ outbound

/-- `features._quality_score`. -/
noncomputable def quality_score (target : Page) (config : EngineConfig) : ℝ :=
  let word_count := (tokenize target.text).length
  let norm : ℚ :=
    if (config.quality_wordcount_norm).getD 800 = 0 then 800
    else (config.quality_wordcount_norm).getD 800
  let normalized_wc : ℝ := (word_count : ℝ) / (norm : ℚ)
  let content_score0 : ℝ := ((target.metadata.content_score.getD 0 : ℚ) : ℝ)
  let content_score :=
    if target.metadata.has_schema then max content_score0 (6/10) else content_score0
  fclamp (min normalized_wc 1 * (6/10) + content_score * (4/10))

/-- `features._freshness_score` (timestamps in days; a missing/malformed
timestamp is `none`). -/
noncomputable def freshness_score (source target : Page) (config : EngineConfig) : ℝ :=
  match target.published_at with
  | none => 4/10
  | some target_ts =>
    let source_ts := source.published_at.getD nowDays
    let delta_days : ℤ := |source_ts - target_ts|
    let freshness_window : ℚ := (config.freshness_half_life_days).getD 90
    fclamp (max (1/10) (1 - (delta_days : ℝ) / ((freshness_window : ℝ) * 2)))

/-- `features.compute_features`: the feature dictionary, in source
insertion order. -/
noncomputable def compute_features (source target : Page) (context : CorpusContext)
    (config : EngineConfig) : List (String × ℝ) :=
  let total_docs := if context.body_tf.length = 0 then 1 else context.body_tf.length
  let title_tf := alGet context.title_tf target.url []
  let body_tf := alGet context.body_tf target.url []
  let title_length := title_tf.foldl (fun a p => a + p.2) 0
  let body_length := body_tf.foldl (fun a p => a + p.2) 0
  let title_score := bm25 (tokenize source.title) title_tf
    (if title_length = 0 then 1 else title_length) context.avg_title_len
    context.title_df total_docs
  let body_score := bm25 (tokenize source.text) body_tf
    (if body_length = 0 then 1 else body_length) context.avg_body_len
    context.body_df total_docs
  let semantic := cosine_similarity (term_frequencies (tokenize source.text)) body_tf
  let f_tag_overlap : ℝ :=
    let source_tags := pySet (source.tags.map pyLower)
    let target_tags := pySet (target.tags.map pyLower)
    if source_tags = [] ∧ target_tags = [] then 0
    else
      let intersection := (source_tags.filter (· ∈ target_tags)).length
      let union0 := (pySet (source_tags ++ target_tags)).length
      (intersection : ℝ) / (if union0 = 0 then 1 else union0)
  let f_taxonomy : ℝ :=
    let ts := source.metadata.taxonomy
    let tt := target.metadata.taxonomy
    if ts = [] ∨ tt = [] then 0
    else
      let overlap := ((pySet ts).filter (· ∈ tt)).length
      let max_depth := max (ts.length) (tt.length)
      (overlap : ℝ) / (if max_depth = 0 then 1 else max_depth)
  let authority0 : ℚ := (target.metadata.authority_score).getD 0
  let authority : ℝ :=
    if authority0 = 0 then
      let inlinks : ℚ := (target.metadata.inlinks).getD 0
      let mi : ℚ := (config.max_inlinks).getD 50
      ((inlinks / (if mi = 0 then 50 else mi) : ℚ) : ℝ)
    else (authority0 : ℝ)
  let depth : ℚ := (target.metadata.click_depth).getD 3
  let max_depth : ℚ := (config.max_click_depth).getD 6
  let f_lang_match : ℝ :=
    if pyTruthy source.lang ∧ pyTruthy target.lang then
      if source.lang = target.lang then 1 else 3/10
    else 7/10
  [("f_title_bm25", fnormalize title_score ((config.title_bm25_norm).getD 8 : ℚ)),
   ("f_body_bm25", fnormalize body_score ((config.body_bm25_norm).getD 12 : ℚ)),
   ("f_semantic", fclamp semantic),
   ("f_entity_overlap", fclamp ((entity_overlap source target : ℚ) : ℝ)),
   ("f_tag_overlap", f_tag_overlap),
   ("f_taxonomy_distance", f_taxonomy),
   ("f_authority", fclamp authority),
   ("f_click_depth", fclamp (1 - ((depth - 1 : ℚ) : ℝ) / ((max_depth : ℚ) : ℝ))),
   ("f_conversion_intent",
     if target.ptype = "review" ∨ target.ptype = "category" ∨ target.ptype = "product"
     then 1 else 3/10),
   ("f_duplicate_risk", if already_links source target then 1 else 0),
   ("f_lang_match", f_lang_match),
   ("f_lang_mismatch", 1 - f_lang_match),
   ("f_quality", fclamp (quality_score target config)),
   ("f_freshness", freshness_score source target config)]

/-! ### Guardrails (`engine_v2/filters.py`) -/

/-- `filters.allow_candidate`. -/
def allow_candidate (source target : Page) (config : EngineConfig) : Bool :=
  if target.url = source.url then false
  else if target.noindex || target.nofollow then false
  else if pyTruthy target.canonical ∧ target.canonical ≠ some target.url then false
  else if target.metadata.is_redirect then false
  else if (target.metadata.status_code.getD 200) ≥ 300 then false
  else if target.metadata.is_paginated_duplicate then false
  else if pySubstr "login" target.url || pySubstr "cart" target.url then false
  else if target.metadata.blocked then false
  else if pyTruthy source.lang ∧ pyTruthy target.lang ∧ source.lang ≠ target.lang then
    let bilingual_tags := (source.tags.map pyLower).inter (target.tags.map pyLower)
    if bilingual_tags = [] then (config.allow_cross_language).getD false else true
  else true

/-- `filters.risk_flags`, as an ordered flag dictionary. -/
def risk_flags (source target : Page) (config : EngineConfig) : List (String × Bool) :=
  let lang_flags :=
    if pyTruthy source.lang ∧ pyTruthy target.lang ∧ source.lang ≠ target.lang then
      [("lang_mismatch", true)]
    else []
  let thin_flags :=
    if target.ptype = "product" then
      [("thin_target",
        decide (((tokenize target.text).length : ℚ) <
          (config.product_wordcount_min).getD 250))]
    else []
  let dup_flags :=
    if source.metadata.outbound_links ≠ [] ∧
        target.url ∈ source.metadata.outbound_links then
      [("dup_anchor", true)]
    else []
  lang_flags ++ thin_flags ++ dup_flags

/-! ### Ranking (`engine_v2/rank.py`) -/

/-- `rank.logistic`: the logistic function with the input clamped to
[-60, 60] before exponentiation. -/
noncomputable def logistic (x : ℝ) : ℝ :=
  1 / (1 + Real.exp (-(max (min x 60) (-60))))

/-- `rank.score_candidate`. -/
noncomputable def score_candidate (features : List (String × ℝ))
    (config : EngineConfig) : ℝ :=
  let linear := features.foldl
    (fun acc p => acc + ((feature_weight config p.1 : ℚ) : ℝ) * p.2) 0
  let penalty := features.foldl
    (fun acc p => acc + ((penalty_weight config p.1 : ℚ) : ℝ) * p.2) 0
  logistic (linear - penalty)

/-- Stable descending sort with an explicit `≤` test (for Python's
tuple-lexicographic `list.sort(reverse=True)`). -/
def pySortDescByLe (le : α → α → Bool) (l : List α) : List α :=
  l.foldl
    (fun acc x =>
      let rec ins : List α → List α
        | [] => [x]
        | y :: ys => if le x y then y :: ins ys else x :: y :: ys
      ins acc)
    []

/-- Python `≤` on the `(weight*value, name, value)` triples sorted by
`score_reason` (tuple comparison; strings compare lexicographically). -/
noncomputable def tripleLe (x y : ℝ × String × ℝ) : Bool :=
  if x.1 < y.1 then true
  else if x.1 = y.1 then
    if x.2.1 < y.2.1 then true
    else if x.2.1 = y.2.1 then decide (x.2.2 ≤ y.2.2)
    else false
  else false

/-- `rank._reason_fragment`. -/
def reason_fragment (name : String) (value : ℝ) (hv : Decidable (value ≥ 85/100))
    (hv2 : Decidable (value ≥ 6/10)) : String :=
  let mapping : List (String × String) :=
    [("f_title_bm25", "strong title match"), ("f_body_bm25", "content overlap"),
     ("f_semantic", "semantic similarity"), ("f_entity_overlap", "shared entities"),
     ("f_tag_overlap", "tag overlap"), ("f_authority", "authoritative target"),
     ("f_click_depth", "shallow depth"), ("f_conversion_intent", "conversion intent"),
     ("f_freshness", "recent update"), ("f_lang_match", "language match"),
     ("f_quality", "high-quality target")]
  match alFind? mapping name with
  | none => ""
  | some descriptor =>
    let qualifier :=
      if @decide _ hv then "excellent"
      else if @decide _ hv2 then "strong" else "good"
    qualifier ++ " " ++ descriptor

/-- `rank.score_reason`. -/
noncomputable def score_reason (features : List (String × ℝ)) (config : EngineConfig)
    (top_k : ℕ := 2) : String :=
  let weighted : List (ℝ × String × ℝ) := features.filterMap fun p =>
    let weight : ℝ := (feature_weight config p.1 : ℚ)
    if weight > 0 ∧ p.2 > 0 then some (weight * p.2, p.1, p.2) else none
  let ordered := pySortDescByLe tripleLe weighted
  let fragments := (ordered.take top_k).map fun t =>
    reason_fragment t.2.1 t.2.2 (Real.decidableLE _ _) (Real.decidableLE _ _)
  "; ".intercalate (fragments.filter (· ≠ ""))

/-! ### Placement (`engine_v2/placement.py`) -/

/-- `placement.choose_placement`. -/
def choose_placement (source target : Page) : String :=
  if target.metadata.is_pillar ∨ target.ptype = "category" ∨ target.ptype = "pillar"
  then "intro"
  else if target.metadata.is_conversion_page then "body"
  else if target.metadata.is_reference then "conclusion"
  else "body"

/-- `placement.max_links_for_page`. -/
def max_links_for_page (source : Page) (config : EngineConfig) : ℤ :=
  let base := (config.base_links_per_page).getD 3
  let words := max (pySplitWs source.text).length 1
  let extra : ℤ := (words / 500 : ℕ)
  let hard_cap := (config.max_links_per_page).getD 12
  min (base + extra) hard_cap

/-! ### Pipeline coordinator (`engine_v2/index.py`) -/

/-- One evaluated candidate (the per-target dict built by
`_evaluate_candidates`). -/
structure EvaluatedItem where
  target : Page
  features : List (String × ℝ)
  score : ℝ
  anchors : List Anchor
  risk_flags : List String
  placement : String
  reason : String
  role : String

/-- `index._conflicts_with_existing`. -/
def conflicts_with_existing (anchors : List Anchor) (used_texts : List String) : Bool :=
  anchors.any fun anchor => pyLower anchor.text ∈ used_texts

/-- `index._is_sibling` (tags are compared without lower-casing here). -/
def is_sibling (source target : Page) : Bool :=
  if source.url = target.url then false
  else if pyTruthy source.metadata.parent_id ∧ pyTruthy target.metadata.parent_id ∧
      source.metadata.parent_id = target.metadata.parent_id then true
  else source.tags.inter target.tags ≠ [] ∧ source.ptype = target.ptype

/-- `index._is_parent`. -/
def is_parent (source target : Page) : Bool :=
  if target.metadata.is_pillar || target.metadata.is_hub then true
  else
    let source_tax := source.metadata.taxonomy
    let target_tax := target.metadata.taxonomy
    if target_tax ≠ [] then source_tax.take target_tax.length = target_tax else false

/-- `index._candidate_role`. -/
def candidate_role (source target : Page) : String :=
  if is_parent source target then "parent"
  else if is_sibling source target then "sibling"
  else if target.metadata.is_money_page then "money"
  else "other"

/-- The loop body of `_evaluate_candidates` for one candidate target
(`continue` becomes `none`). -/
noncomputable def evaluate_one (source target : Page) (context : CorpusContext)
    (config : EngineConfig) : Option EvaluatedItem :=
  if ¬ allow_candidate source target config then none
  else
    let features := compute_features source target context config
    let score := score_candidate features config
    if score < (((config.score_floor).getD (4/10) : ℚ) : ℝ) then none
    else
      let anchor_options := extract_candidate_anchors source target
      let selected_anchors := select_anchors source anchor_options config
      if selected_anchors = [] then none
      else
        let risk_map := risk_flags source target config
        if alGet risk_map "lang_mismatch" false ∧ alGet features "f_semantic" 0 < 18/100
        then none
        else some
          { target := target
            features := features
            score := score
            anchors := selected_anchors
            risk_flags := (risk_map.filter (·.2)).map (·.1)
            placement := choose_placement source target
            reason := score_reason features config
            role := candidate_role source target }

/-- Building a `Suggestion` from an evaluated item (identical in the
greedy loop and in `_ensure_hub_and_sibling`). -/
def suggestion_of (item : EvaluatedItem) : Suggestion :=
  { target_url := item.target.url
    reason := item.reason
    score := item.score
    anchors := item.anchors
    placement_hint := item.placement
    rel := "follow"
    risk_flags := item.risk_flags }

/-- Mutable state of the greedy selection loop. -/
structure SelState where
  selected : List Suggestion
  used_targets : List String
  used_anchor_texts : List String
  selected_roles : List String

/-- The greedy budget-bounded selection loop of `_evaluate_candidates`. -/
noncomputable def greedy_select (budget : ℤ) :
    List EvaluatedItem → SelState → SelState
  | [], st => st
  | item :: rest, st =>
    if (st.selected.length : ℤ) ≥ budget then st
    else if item.target.url ∈ st.used_targets then greedy_select budget rest st
    else if conflicts_with_existing item.anchors st.used_anchor_texts then
      greedy_select budget rest st
    else
      let suggestion := suggestion_of item
      greedy_select budget rest
        { selected := st.selected ++ [suggestion]
          used_targets := st.used_targets ++ [item.target.url]
          used_anchor_texts :=
            st.used_anchor_texts ++ suggestion.anchors.map fun a => pyLower a.text
          selected_roles := st.selected_roles ++ [item.role] }

/-- First index of the minimum score (`min(range(len(existing)), key=...)`,
which returns the earliest index on ties). -/
noncomputable def argmin_from (l : List Suggestion) (i : ℕ) (bi : ℕ) (bs : ℝ) : ℕ :=
  match l with
  | [] => bi
  | s :: rest =>
    if s.score < bs then argmin_from rest (i + 1) i s.score
    else argmin_from rest (i + 1) bi bs

/-- `index._insert_or_replace`.  On an empty list at or over the limit the
source raises `ValueError` (`min` of an empty range); that branch is only
reachable when `limit ≤ 0` and is modelled as returning the list
unchanged. -/
noncomputable def insert_or_replace (existing : List Suggestion)
    (new_item : Suggestion) (limit : ℤ) : List Suggestion :=
  if (existing.length : ℤ) < limit then existing ++ [new_item]
  else
    match existing with
    | [] => existing
    | s :: rest =>
      let lowest_index := argmin_from rest 1 0 s.score
      if ((s :: rest).getD lowest_index new_item).score < new_item.score then
        (s :: rest).set lowest_index new_item
      else s :: rest

/-- State threaded through the two backfill blocks of
`_ensure_hub_and_sibling` (the role set is only read before the blocks
run, so its updates are omitted). -/
structure BackfillState where
  result : List Suggestion
  used_targets : List String
  used_anchor_texts : List String

/-- One backfill block of `_ensure_hub_and_sibling`: find the first
candidate with an unused target and non-colliding anchors, insert it
(replacing the lowest-scoring incumbent when at the limit), and stop. -/
noncomputable def backfill_insert (limit : ℤ) :
    List EvaluatedItem → BackfillState → BackfillState
  | [], st => st
  | item :: rest, st =>
    if item.target.url ∈ st.used_targets then backfill_insert limit rest st
    else if conflicts_with_existing item.anchors st.used_anchor_texts then
      backfill_insert limit rest st
    else
      let suggestion := suggestion_of item
      { result := insert_or_replace st.result suggestion limit
        used_targets := st.used_targets ++ [item.target.url]
        used_anchor_texts :=
          st.used_anchor_texts ++ suggestion.anchors.map fun a => pyLower a.text }

/-- `index._ensure_hub_and_sibling`. -/
noncomputable def ensure_hub_and_sibling (selected : List Suggestion)
    (sibling_candidates parent_candidates : List EvaluatedItem) (limit : ℤ)
    (used_targets used_anchor_texts selected_roles : List String) :
    List Suggestion :=
  let has_sibling := "sibling" ∈ selected_roles
  let has_parent := "parent" ∈ selected_roles
  let st0 : BackfillState := ⟨selected, used_targets, used_anchor_texts⟩
  let st1 := if ¬ has_parent then backfill_insert limit parent_candidates st0 else st0
  let st2 := if ¬ has_sibling then backfill_insert limit sibling_candidates st1 else st1
  pyTake st2.result limit

/-- `index._evaluate_candidates`: returns the final suggestions and the
full evaluated list. -/
noncomputable def evaluate_candidates (source : Page) (candidates : List Page)
    (context : CorpusContext) (config : EngineConfig) :
    List Suggestion × List EvaluatedItem :=
  let evaluated0 := candidates.filterMap fun target =>
    evaluate_one source target context config
  let evaluated := pySortDescBy (fun item => item.score) evaluated0
  let link_budget := max_links_for_page source config
  let sibling_candidates := evaluated.filter fun item => item.role = "sibling"
  let parent_candidates := evaluated.filter fun item => item.role = "parent"
  let st := greedy_select link_budget evaluated ⟨[], [], [], []⟩
  let final := ensure_hub_and_sibling st.selected sibling_candidates
    parent_candidates link_budget st.used_targets st.used_anchor_texts
    st.selected_roles
  (pySortDescBy (fun s => s.score) final, evaluated)

/-- `index.suggest_links`. -/
noncomputable def suggest_links (page : Page) (corpus : List Page)
    (config : Option EngineConfig := none) : List Suggestion :=
  let engine_config := config.getD load_config
  let corpus_context := build_corpus_context corpus
  let raw_candidates := generate_candidates page corpus corpus_context engine_config
  (evaluate_candidates page raw_candidates corpus_context engine_config).1

/-- `index._compute_orphan_rate`. -/
noncomputable def compute_orphan_rate (inbound_counts : List (String × ℕ)) : ℝ :=
  let total := if inbound_counts.length = 0 then 1 else inbound_counts.length
  let orphans := (inbound_counts.filter fun p => p.2 = 0).length
  (orphans : ℝ) / (total : ℝ)

/-- `index._simulate_click_depth`. -/
noncomputable def simulate_click_depth (corpus : List Page)
    (inbound_counts : List (String × ℕ)) : ℝ :=
  if corpus = [] then 0
  else
    let total_depth := corpus.foldl
      (fun acc page =>
        let depth : ℝ := ((page.metadata.click_depth.getD 3 : ℚ) : ℝ)
        let inbound : ℕ := alGet inbound_counts page.url 0
        acc + (if inbound ≠ 0 then max 1 (depth - (1/2) * (inbound : ℝ)) else depth))
      0
    total_depth / (corpus.length : ℝ)

/-- `index._shannon_entropy` over an anchor-variant counter. -/
noncomputable def shannon_entropy (counter : List (String × ℕ)) : ℝ :=
  let total : ℕ := counter.foldl (fun a p => a + p.2) 0
  if total = 0 then 0
  else
    let entropy := counter.foldl
      (fun acc p =>
        let probability : ℝ := (p.2 : ℝ) / (total : ℝ)
        acc - probability * Real.log probability)
      0
    if counter.length ≤ 1 then 0 else entropy / Real.log (counter.length : ℝ)

/-- The metrics record returned by `index.dry_run`. -/
structure DryRunMetrics where
  coverage : ℝ
  orphan_rate : ℝ
  avg_click_depth_after : ℝ
  anchor_diversity_index : ℝ
  dup_target_rate : ℝ
  mean_score_selected : ℝ
  mean_score_rejected : ℝ
  language_mismatch_rate : ℝ
  anchor_variant_counts : List (String × ℕ)

/-- Per-batch accumulator of `dry_run`'s loop. -/
structure DryRunAcc where
  pages_with_suggestions : ℕ
  inbound_counts : List (String × ℕ)
  anchor_variants : List (String × ℕ)
  selected_scores : List ℝ
  rejected_scores : List ℝ
  duplicate_targets : ℕ
  lang_mismatch_suggestions : ℕ
  total_suggestions : ℕ

/-- `index.dry_run`. -/
noncomputable def dry_run (pages corpus : List Page)
    (config : Option EngineConfig := none) : DryRunMetrics :=
  let engine_config := config.getD load_config
  let corpus_context := build_corpus_context corpus
  let acc0 : DryRunAcc :=
    { pages_with_suggestions := 0
      inbound_counts := corpus.foldl (fun acc p => alSet acc p.url 0) []
      anchor_variants := []
      selected_scores := []
      rejected_scores := []
      duplicate_targets := 0
      lang_mismatch_suggestions := 0
      total_suggestions := 0 }
  let acc := pages.foldl
    (fun acc page =>
      let raw_candidates := generate_candidates page corpus corpus_context engine_config
      let res := evaluate_candidates page raw_candidates corpus_context engine_config
      let suggestions := res.1
      let evaluated := res.2
      let selected_urls := suggestions.map (·.target_url)
      let inner := suggestions.foldl
        (fun (st : DryRunAcc × List String) suggestion =>
          let a := st.1
          let seen_targets := st.2
          ({ a with
              total_suggestions := a.total_suggestions + 1
              selected_scores := a.selected_scores ++ [suggestion.score]
              inbound_counts := alSet a.inbound_counts suggestion.target_url
                (alGet a.inbound_counts suggestion.target_url 0 + 1)
              anchor_variants := suggestion.anchors.foldl
                (fun av anchor => alIncr av anchor.variant) a.anchor_variants
              lang_mismatch_suggestions := a.lang_mismatch_suggestions +
                (if "lang_mismatch" ∈ suggestion.risk_flags then 1 else 0)
              duplicate_targets := a.duplicate_targets +
                (if suggestion.target_url ∈ seen_targets then 1 else 0) },
            seen_targets ++ [suggestion.target_url]))
        ({ acc with
            pages_with_suggestions :=
              acc.pages_with_suggestions + (if suggestions.isEmpty then 0 else 1) }, [])
      let withRejected := { inner.1 with
        rejected_scores := inner.1.rejected_scores ++
          (evaluated.filter fun item => ¬ item.target.url ∈ selected_urls).map (·.score) }
      withRejected)
    acc0
  let total_pages := if pages.length = 0 then 1 else pages.length
  { coverage := (acc.pages_with_suggestions : ℝ) / (total_pages : ℝ)
    orphan_rate := compute_orphan_rate acc.inbound_counts
    avg_click_depth_after := simulate_click_depth corpus acc.inbound_counts
    anchor_diversity_index := shannon_entropy acc.anchor_variants
    dup_target_rate := (acc.duplicate_targets : ℝ) / (total_pages : ℝ)
    mean_score_selected :=
      if acc.selected_scores = [] then 0
      else acc.selected_scores.sum / (acc.selected_scores.length : ℝ)
    mean_score_rejected :=
      if acc.rejected_scores = [] then 0
      else acc.rejected_scores.sum / (acc.rejected_scores.length : ℝ)
    language_mismatch_rate :=
      if acc.total_suggestions = 0 then 0
      else (acc.lang_mismatch_suggestions : ℝ) / (acc.total_suggestions : ℝ)
    anchor_variant_counts := acc.anchor_variants }

/-! ### Basic lemmas about the embedding -/

theorem foldl_add_map (f : α → ℝ) (l : List α) (a : ℝ) :
    l.foldl (fun acc x => acc + f x) a = a + (l.map f).sum := by
  induction l generalizing a with
  | nil => simp
  | cons x t ih => simp [ih, add_assoc]

theorem logistic_pos (x : ℝ) : 0 < logistic x := by
  unfold logistic
  positivity

theorem logistic_lt_one (x : ℝ) : logistic x < 1 := by
  unfold logistic
  rw [div_lt_one (by positivity)]
  have := Real.exp_pos (-(max (min x 60) (-60)))
  linarith

theorem logistic_mono {x y : ℝ} (h : x ≤ y) : logistic x ≤ logistic y := by
  unfold logistic
  have hc : max (min x 60) (-60) ≤ max (min y 60) (-60) := by
    have : min x 60 ≤ min y 60 := min_le_min h le_rfl
    exact max_le_max this le_rfl
  have he : Real.exp (-(max (min y 60) (-60))) ≤ Real.exp (-(max (min x 60) (-60))) :=
    Real.exp_le_exp.mpr (by linarith)
  have h1 : (0 : ℝ) < 1 + Real.exp (-(max (min y 60) (-60))) := by positivity
  have h2 : (0 : ℝ) < 1 + Real.exp (-(max (min x 60) (-60))) := by positivity
  exact one_div_le_one_div_of_le h1 (by linarith)

theorem score_candidate_eq (features : List (String × ℝ)) (config : EngineConfig) :
    score_candidate features config =
      logistic
        ((features.map fun p => ((feature_weight config p.1 : ℚ) : ℝ) * p.2).sum -
         (features.map fun p => ((penalty_weight config p.1 : ℚ) : ℝ) * p.2).sum) := by
  unfold score_candidate
  rw [foldl_add_map (fun p => ((feature_weight config p.1 : ℚ) : ℝ) * p.2) features 0]
  rw [foldl_add_map (fun p => ((penalty_weight config p.1 : ℚ) : ℝ) * p.2) features 0]
  simp

/-- C10 helper: the weighted-minus-penalized sum splits over the list. -/
theorem score_linear_split (config : EngineConfig) (pre post : List (String × ℝ))
    (f : String) (v : ℝ) :
    (((pre ++ (f, v) :: post).map fun p => ((feature_weight config p.1 : ℚ) : ℝ) * p.2).sum -
     ((pre ++ (f, v) :: post).map fun p => ((penalty_weight config p.1 : ℚ) : ℝ) * p.2).sum) =
      ((pre.map fun p => ((feature_weight config p.1 : ℚ) : ℝ) * p.2).sum -
       (pre.map fun p => ((penalty_weight config p.1 : ℚ) : ℝ) * p.2).sum) +
      ((post.map fun p => ((feature_weight config p.1 : ℚ) : ℝ) * p.2).sum -
       (post.map fun p => ((penalty_weight config p.1 : ℚ) : ℝ) * p.2).sum) +
      (((feature_weight config f : ℚ) : ℝ) - ((penalty_weight config f : ℚ) : ℝ)) * v := by
  simp [List.map_append, List.sum_append]
  ring

/-- C10: raising a feature whose weight is at least its penalty never
lowers the score. -/
theorem C10_score_monotone (config : EngineConfig) (pre post : List (String × ℝ))
    (f : String) (v v' : ℝ)
    (hw : penalty_weight config f ≤ feature_weight config f)
    (hv : v ≤ v') :
    score_candidate (pre ++ (f, v) :: post) config ≤
      score_candidate (pre ++ (f, v') :: post) config := by
  rw [score_candidate_eq, score_candidate_eq]
  apply logistic_mono
  rw [score_linear_split, score_linear_split]
  have hw' : ((penalty_weight config f : ℚ) : ℝ) ≤ ((feature_weight config f : ℚ) : ℝ) := by
    exact_mod_cast hw
  nlinarith

/-- C10 witness: instantiated at the default configuration for
`f_semantic` (weight 1.2, penalty 0) with the feature raised from 0 to 1. -/
theorem C10_score_monotone_witness :
    penalty_weight defaultConfig "f_semantic" ≤ feature_weight defaultConfig "f_semantic" ∧
    (0 : ℝ) ≤ 1 ∧
    score_candidate [("f_semantic", 0)] defaultConfig ≤
      score_candidate [("f_semantic", 1)] defaultConfig := by
  have hw : penalty_weight defaultConfig "f_semantic" ≤
      feature_weight defaultConfig "f_semantic" := by
    rw [show feature_weight defaultConfig "f_semantic" = 12/10 from rfl,
      show penalty_weight defaultConfig "f_semantic" = 0 from rfl]
    norm_num
  exact ⟨hw, by norm_num,
    C10_score_monotone defaultConfig [] [] "f_semantic" 0 1 hw (by norm_num)⟩

/-! ### Lower-casing and whitespace lemmas -/

theorem ws_toNat (d : Char) (h : d.isWhitespace = true) :
    d.toNat = 32 ∨ d.toNat = 9 ∨ d.toNat = 13 ∨ d.toNat = 10 := by
  simp only [Char.isWhitespace, Bool.or_eq_true, decide_eq_true_eq] at h
  rcases h with ((h | h) | h) | h <;> subst h <;> simp [Char.toNat]

theorem toNat_ofNat_valid (n : ℕ) (h1 : n < 0xd800) : (Char.ofNat n).toNat = n := by
  unfold Char.ofNat
  rw [dif_pos (Or.inl h1)]
  rfl

theorem toLower_not_ws (c : Char) (h : c.isWhitespace = false) :
    (c.toLower).isWhitespace = false := by
  unfold Char.toLower
  simp only []
  by_cases hc : c.toNat ≥ 65 ∧ c.toNat ≤ 90
  · rw [if_pos hc]
    by_cases hw : (Char.ofNat (c.toNat + 32)).isWhitespace
    · exfalso
      have h1 := ws_toNat _ hw
      have h2 : (Char.ofNat (c.toNat + 32)).toNat = c.toNat + 32 :=
        toNat_ofNat_valid _ (by omega)
      omega
    · simpa using hw
  · rw [if_neg hc]
    exact h

theorem toLower_ws (c : Char) (h : c.isWhitespace = true) : c.toLower = c := by
  unfold Char.toLower
  simp only []
  have := ws_toNat c h
  rw [if_neg (by omega)]

theorem pyLowerChar_ne_nil (c : Char) : pyLowerChar c ≠ [] := by
  unfold pyLowerChar
  split <;> simp

theorem pyLowerChar_ws (c : Char) (h : c.isWhitespace = true) : pyLowerChar c = [c] := by
  have hne : c ≠ 'İ' := by
    intro he
    subst he
    exact absurd h (by decide)
  unfold pyLowerChar
  rw [if_neg hne, toLower_ws c h]

theorem pyLowerChar_not_ws (c : Char) (h : c.isWhitespace = false) :
    ∀ d ∈ pyLowerChar c, d.isWhitespace = false := by
  unfold pyLowerChar
  split
  · intro d hd
    have hd2 : d = 'i' ∨ d = '̇' := by simpa using hd
    rcases hd2 with hd2 | hd2 <;> subst hd2 <;> decide
  · intro d hd
    have hd2 : d = c.toLower := by simpa using hd
    subst hd2
    exact toLower_not_ws c h

theorem pyLowerList_append (a b : List Char) :
    pyLowerList (a ++ b) = pyLowerList a ++ pyLowerList b := by
  simp [pyLowerList]

theorem pyLowerList_dropWhile (s : List Char) :
    pyLowerList (s.dropWhile Char.isWhitespace) =
      (pyLowerList s).dropWhile Char.isWhitespace := by
  induction s with
  | nil => rfl
  | cons c t ih =>
    by_cases hw : c.isWhitespace
    · rw [List.dropWhile_cons_of_pos (by simpa using hw), ih]
      have hcons : pyLowerList (c :: t) = c :: pyLowerList t := by
        simp [pyLowerList, pyLowerChar_ws c hw]
      rw [hcons, List.dropWhile_cons_of_pos (by simpa using hw)]
    · rw [List.dropWhile_cons_of_neg (by simpa using hw)]
      have hnotws := pyLowerChar_not_ws c (by simpa using hw)
      obtain ⟨d, ds, hd⟩ := List.exists_cons_of_ne_nil (pyLowerChar_ne_nil c)
      have hcons : pyLowerList (c :: t) = d :: (ds ++ pyLowerList t) := by
        simp [pyLowerList, hd]
      have hdws : ¬ d.isWhitespace = true := by
        simp [hnotws d (by simp [hd])]
      rw [hcons, List.dropWhile_cons_of_neg hdws]

/-- Stripping trailing whitespace. -/
def stripEnd (l : List Char) : List Char :=
  (l.reverse.dropWhile Char.isWhitespace).reverse

theorem pyLowerList_stripEnd (l : List Char) :
    pyLowerList (stripEnd l) = stripEnd (pyLowerList l) := by
  induction l using List.reverseRecOn with
  | nil => rfl
  | append_singleton t c ih =>
    by_cases hw : c.isWhitespace
    · have h1 : stripEnd (t ++ [c]) = stripEnd t := by
        simp only [stripEnd, List.reverse_append, List.reverse_singleton,
          List.singleton_append]
        rw [List.dropWhile_cons_of_pos (by simpa using hw)]
      have h2 : stripEnd (pyLowerList (t ++ [c])) = stripEnd (pyLowerList t) := by
        rw [pyLowerList_append]
        have hl : pyLowerList [c] = [c] := by simp [pyLowerList, pyLowerChar_ws c hw]
        rw [hl]
        simp only [stripEnd, List.reverse_append, List.reverse_singleton,
          List.singleton_append]
        rw [List.dropWhile_cons_of_pos (by simpa using hw)]
      rw [h1, h2, ih]
    · have h1 : stripEnd (t ++ [c]) = t ++ [c] := by
        simp only [stripEnd, List.reverse_append, List.reverse_singleton,
          List.singleton_append]
        rw [List.dropWhile_cons_of_neg (by simpa using hw)]
        simp
      have hnotws := pyLowerChar_not_ws c (by simpa using hw)
      have hlast : (pyLowerChar c).reverse ≠ [] := by simp [pyLowerChar_ne_nil c]
      obtain ⟨e, es, he⟩ := List.exists_cons_of_ne_nil hlast
      have hews : ¬ e.isWhitespace = true := by
        have hmem : e ∈ (pyLowerChar c).reverse := by simp [he]
        simp [hnotws e (by simpa using hmem)]
      have h2 : stripEnd (pyLowerList (t ++ [c])) = pyLowerList t ++ pyLowerChar c := by
        rw [pyLowerList_append]
        have hl : pyLowerList [c] = pyLowerChar c := by simp [pyLowerList]
        rw [hl]
        show ((pyLowerList t ++ pyLowerChar c).reverse.dropWhile _).reverse = _
        rw [List.reverse_append, he, List.cons_append,
          List.dropWhile_cons_of_neg hews, ← List.cons_append, ← he,
          ← List.reverse_append, List.reverse_reverse]
      rw [h1, h2, pyLowerList_append]
      have hl : pyLowerList [c] = pyLowerChar c := by simp [pyLowerList]
      rw [hl]

theorem pyStripList_eq_stripEnd (s : List Char) :
    pyStripList s = stripEnd (s.dropWhile Char.isWhitespace) := rfl

theorem pyLower_pyStrip_comm (s : String) :
    pyLower (pyStrip s) = pyStrip (pyLower s) := by
  show (⟨pyLowerList (pyStripList s.data)⟩ : String) = ⟨pyStripList (pyLowerList s.data)⟩
  rw [pyStripList_eq_stripEnd, pyLowerList_stripEnd, pyLowerList_dropWhile]
  rfl

/-- If two anchors have equal Python-lowered texts, they also have equal
`strip().lower()` normalizations. -/
theorem anchorNorm_eq_of_lower_eq {a b : Anchor}
    (h : pyLower a.text = pyLower b.text) : anchorNorm a = anchorNorm b := by
  unfold anchorNorm
  rw [pyLower_pyStrip_comm, pyLower_pyStrip_comm, h]

/-! ### Permutation lemmas for the Python sorts -/

theorem stableInsertGE_perm [LinearOrder β] (key : α → β) (l : List α) (x : α) :
    (stableInsertGE key l x).Perm (x :: l) := by
  induction l with
  | nil => exact List.Perm.refl _
  | cons y ys ih =>
    unfold stableInsertGE
    split
    · exact (ih.cons y).trans (List.Perm.swap x y ys)
    · exact List.Perm.refl _

theorem pySortDescBy_perm [LinearOrder β] (key : α → β) (l : List α) :
    (pySortDescBy key l).Perm l := by
  suffices h : ∀ (l acc : List α), (l.foldl (stableInsertGE key) acc).Perm (acc ++ l) by
    simpa using h l []
  intro l
  induction l with
  | nil => simp
  | cons x t ih =>
    intro acc
    exact ((ih _).trans
      ((stableInsertGE_perm key acc x).append_right t)).trans List.perm_middle.symm

theorem stableInsertLE_perm [LinearOrder β] (key : α → β) (l : List α) (x : α) :
    (stableInsertLE key l x).Perm (x :: l) := by
  induction l with
  | nil => exact List.Perm.refl _
  | cons y ys ih =>
    unfold stableInsertLE
    split
    · exact (ih.cons y).trans (List.Perm.swap x y ys)
    · exact List.Perm.refl _

theorem pySortAscBy_perm [LinearOrder β] (key : α → β) (l : List α) :
    (pySortAscBy key l).Perm l := by
  suffices h : ∀ (l acc : List α), (l.foldl (stableInsertLE key) acc).Perm (acc ++ l) by
    simpa using h l []
  intro l
  induction l with
  | nil => simp
  | cons x t ih =>
    intro acc
    exact ((ih _).trans
      ((stableInsertLE_perm key acc x).append_right t)).trans List.perm_middle.symm

/-! ### Distinctness of selected anchors -/

/-- Invariant of the first selection pass: every selected anchor's
normalization is recorded, and normalizations are pairwise distinct. -/
def P1Inv (st : Pass1State) : Prop :=
  (∀ a ∈ st.selected, anchorNorm a ∈ st.used_texts) ∧
  (st.selected.map anchorNorm).Nodup

theorem select_pass1_inv (limit ea : ℤ) (l : List (ℚ × Anchor)) (st : Pass1State)
    (h : P1Inv st) : P1Inv (select_pass1 limit ea l st) := by
  induction l generalizing st with
  | nil => simpa [select_pass1] using h
  | cons qa rest ih =>
    obtain ⟨q, a⟩ := qa
    rw [select_pass1]
    split
    · exact h
    · split
      · exact ih st h
      · split
        · exact ih st h
        · rename_i hused _
          apply ih
          constructor
          · intro b hb
            rcases List.mem_append.mp hb with hb | hb
            · exact List.mem_append.mpr (Or.inl (h.1 b hb))
            · simp at hb
              subst hb
              simp
          · rw [List.map_append]
            rw [List.nodup_append]
            refine ⟨h.2, by simp, ?_⟩
            intro x hx hy
            simp at hy
            obtain ⟨b, hb, hba⟩ := List.mem_map.mp hx
            rw [← hba] at hy
            exact hused (hy ▸ h.1 b hb)

/-- Invariant of the second selection pass. -/
def P2Inv (st : Pass2State) : Prop :=
  (∀ a ∈ st.selected, anchorNorm a ∈ st.used_texts) ∧
  (st.selected.map anchorNorm).Nodup

theorem select_pass2_inv (limit : ℤ) (l : List (ℚ × Anchor)) (st : Pass2State)
    (h : P2Inv st) : P2Inv (select_pass2 limit l st) := by
  induction l generalizing st with
  | nil => simpa [select_pass2] using h
  | cons qa rest ih =>
    obtain ⟨q, a⟩ := qa
    rw [select_pass2]
    split
    · exact h
    · split
      · exact ih st h
      · split
        · exact ih st h
        · rename_i hused
          apply ih
          constructor
          · intro b hb
            rcases List.mem_append.mp hb with hb | hb
            · exact List.mem_append.mpr (Or.inl (h.1 b hb))
            · simp at hb
              subst hb
              simp
          · rw [List.map_append, List.nodup_append]
            refine ⟨h.2, by simp, ?_⟩
            intro x hx hy
            simp at hy
            obtain ⟨b, hb, hba⟩ := List.mem_map.mp hx
            rw [← hba] at hy
            exact hused (hy ▸ h.1 b hb)

theorem select_anchors_norm_nodup (source : Page) (anchors : List Anchor)
    (cfg : EngineConfig) :
    ((select_anchors source anchors cfg).map anchorNorm).Nodup := by
  have hsort : ∀ sel2 : List Anchor,
      (sel2.map anchorNorm).Nodup →
      ((pySortAscBy (fun a => a.start) sel2).map anchorNorm).Nodup := by
    intro sel2 hn
    exact (((pySortAscBy_perm (fun a : Anchor => a.start) sel2).map anchorNorm).nodup_iff).mpr hn
  have h1 : P1Inv (select_pass1 ((cfg.max_anchors_per_target).getD 2)
      (max 1 (pyTrunc (((cfg.max_anchors_per_target).getD 2 : ℚ) * (4/10))))
      (select_ranked source anchors) ⟨[], [], 0⟩) :=
    select_pass1_inv _ _ _ _ ⟨by simp, by simp⟩
  unfold select_anchors
  split
  · simp
  · dsimp only
    split
    · exact hsort _ (select_pass2_inv _ _ _ ⟨h1.1, h1.2⟩).2
    · exact hsort _ h1.2

/-- Transfer of `Nodup` along a coarser normalization. -/
theorem nodup_map_of_nodup_map {f g : α → γ} (l : List α)
    (h : (l.map g).Nodup) (hfg : ∀ x y, f x = f y → g x = g y) :
    (l.map f).Nodup := by
  induction l with
  | nil => simp
  | cons x t ih =>
    simp only [List.map_cons, List.nodup_cons] at h ⊢
    refine ⟨?_, ih h.2⟩
    intro hx
    obtain ⟨y, hy, hyx⟩ := List.mem_map.mp hx
    exact h.1 (List.mem_map.mpr ⟨y, hy, hfg y x hyx⟩)

/-- The anchors chosen for one target have pairwise distinct Python-lowered
texts. -/
theorem select_anchors_lower_nodup (source : Page) (anchors : List Anchor)
    (cfg : EngineConfig) :
    ((select_anchors source anchors cfg).map fun a => pyLower a.text).Nodup :=
  nodup_map_of_nodup_map _ (select_anchors_norm_nodup source anchors cfg)
    (fun x y h => anchorNorm_eq_of_lower_eq h)

/-! ### Soundness of the coordinator selection -/

/-- Facts guaranteed for every evaluated item. -/
def ItemOK (source : Page) (context : CorpusContext) (config : EngineConfig)
    (it : EvaluatedItem) : Prop :=
  allow_candidate source it.target config = true ∧
  it.score = score_candidate (compute_features source it.target context config) config ∧
  it.anchors = select_anchors source (extract_candidate_anchors source it.target) config ∧
  it.anchors ≠ []

set_option maxHeartbeats 1600000 in
theorem evaluate_one_some {source target : Page} {context : CorpusContext}
    {config : EngineConfig} {it : EvaluatedItem}
    (h : evaluate_one source target context config = some it) :
    it.target = target ∧ ItemOK source context config it := by
  unfold evaluate_one at h
  split at h
  · cases h
  · rename_i hallow
    rw [Bool.not_eq_true] at hallow
    rw [Bool.eq_false_iff, ne_eq, not_not] at hallow
    dsimp only at h
    split at h
    · cases h
    · split at h
      · cases h
      · rename_i hanch
        split at h
        · cases h
        · simp only [Option.some.injEq] at h
          subst h
          exact ⟨rfl, hallow, rfl, rfl, hanch⟩

theorem allow_candidate_facts {s t : Page} {cfg : EngineConfig}
    (h : allow_candidate s t cfg = true) : t.url ≠ s.url ∧ t.noindex = false := by
  unfold allow_candidate at h
  split at h
  · cases h
  · rename_i hurl
    split at h
    · cases h
    · rename_i hni
      simp only [Bool.or_eq_true, not_or, Bool.not_eq_true] at hni
      exact ⟨hurl, hni.1⟩

/-- All Python-lowered anchor texts across a suggestion list. -/
def suggestionTexts (l : List Suggestion) : List String :=
  l.flatMap fun s => s.anchors.map fun a => pyLower a.text

theorem suggestionTexts_append (a b : List Suggestion) :
    suggestionTexts (a ++ b) = suggestionTexts a ++ suggestionTexts b := by
  simp [suggestionTexts]

theorem conflicts_false_iff (anchors : List Anchor) (used : List String) :
    conflicts_with_existing anchors used = false ↔
      ∀ a ∈ anchors, ¬ pyLower a.text ∈ used := by
  simp [conflicts_with_existing]

/-- Invariant of the greedy selection loop, relative to a property `Q` of
the evaluated items feeding it. -/
def SelInv (Q : EvaluatedItem → Prop) (st : SelState) : Prop :=
  (∀ s ∈ st.selected, ∃ it, Q it ∧ s = suggestion_of it) ∧
  (∀ s ∈ st.selected, s.target_url ∈ st.used_targets) ∧
  (st.selected.map (·.target_url)).Nodup ∧
  (∀ t ∈ suggestionTexts st.selected, t ∈ st.used_anchor_texts) ∧
  (suggestionTexts st.selected).Nodup

theorem SelInv_step {Q : EvaluatedItem → Prop} {st : SelState}
    (item : EvaluatedItem) (hQ : Q item)
    (hnodup : (item.anchors.map fun a => pyLower a.text).Nodup)
    (hti : ¬ item.target.url ∈ st.used_targets)
    (hai : conflicts_with_existing item.anchors st.used_anchor_texts = false)
    (h : SelInv Q st) (roles : List String) :
    SelInv Q
      { selected := st.selected ++ [suggestion_of item]
        used_targets := st.used_targets ++ [item.target.url]
        used_anchor_texts :=
          st.used_anchor_texts ++ (suggestion_of item).anchors.map fun a => pyLower a.text
        selected_roles := roles } := by
  obtain ⟨h1, h2, h3, h4, h5⟩ := h
  have hconf := (conflicts_false_iff _ _).mp hai
  refine ⟨?_, ?_, ?_, ?_, ?_⟩
  · intro s hs
    rcases List.mem_append.mp hs with hs | hs
    · exact h1 s hs
    · simp at hs
      subst hs
      exact ⟨item, hQ, rfl⟩
  · intro s hs
    rcases List.mem_append.mp hs with hs | hs
    · exact List.mem_append.mpr (Or.inl (h2 s hs))
    · simp at hs
      subst hs
      simp [suggestion_of]
  · rw [List.map_append, List.nodup_append]
    refine ⟨h3, by simp, ?_⟩
    intro x hx hy
    simp [suggestion_of] at hy
    subst hy
    obtain ⟨s, hs, hsu⟩ := List.mem_map.mp hx
    exact hti (hsu ▸ h2 s hs)
  · intro t ht
    rw [suggestionTexts_append] at ht
    rcases List.mem_append.mp ht with ht | ht
    · exact List.mem_append.mpr (Or.inl (h4 t ht))
    · refine List.mem_append.mpr (Or.inr ?_)
      simpa [suggestionTexts] using ht
  · rw [suggestionTexts_append, List.nodup_append]
    refine ⟨h5, ?_, ?_⟩
    · simpa [suggestionTexts, suggestion_of] using hnodup
    · intro x hx hy
      simp only [suggestionTexts, suggestion_of, List.flatMap_cons,
        List.flatMap_nil, List.append_nil] at hy
      obtain ⟨a, ha, hal⟩ := List.mem_map.mp hy
      exact hconf a ha (hal ▸ h4 x hx)

theorem greedy_select_inv (Q : EvaluatedItem → Prop) (budget : ℤ)
    (l : List EvaluatedItem) (st : SelState)
    (hl : ∀ it ∈ l, Q it ∧ (it.anchors.map fun a => pyLower a.text).Nodup)
    (h : SelInv Q st) : SelInv Q (greedy_select budget l st) := by
  induction l generalizing st with
  | nil => simpa [greedy_select] using h
  | cons item rest ih =>
    rw [greedy_select]
    split
    · exact h
    · split
      · exact ih st (fun it hit => hl it (by simp [hit])) h
      · split
        · exact ih st (fun it hit => hl it (by simp [hit])) h
        · rename_i hti hai
          apply ih _ (fun it hit => hl it (by simp [hit]))
          exact SelInv_step item (hl item (by simp)).1 (hl item (by simp)).2 hti
            (by simpa using hai) h _

/-- The selection invariant, stated for a plain list with its bookkeeping
sets (the greedy state and the backfill state share it). -/
def ListInv (Q : EvaluatedItem → Prop) (result : List Suggestion)
    (usedT usedA : List String) : Prop :=
  SelInv Q ⟨result, usedT, usedA, []⟩

theorem ListInv_mono {Q result usedT usedA usedT' usedA'}
    (h : ListInv Q result usedT usedA)
    (hT : ∀ t ∈ usedT, t ∈ usedT') (hA : ∀ t ∈ usedA, t ∈ usedA') :
    ListInv Q result usedT' usedA' := by
  obtain ⟨h1, h2, h3, h4, h5⟩ := h
  exact ⟨h1, fun s hs => hT _ (h2 s hs), h3, fun t ht => hA _ (h4 t ht), h5⟩

theorem suggestionTexts_cons (x : Suggestion) (t : List Suggestion) :
    suggestionTexts (x :: t) =
      (x.anchors.map fun a => pyLower a.text) ++ suggestionTexts t := by
  simp [suggestionTexts]

theorem ListInv_cons_elim {Q x t usedT usedA} (h : ListInv Q (x :: t) usedT usedA) :
    ListInv Q t usedT usedA := by
  obtain ⟨h1, h2, h3, h4, h5⟩ := h
  rw [suggestionTexts_cons, List.nodup_append] at h5
  refine ⟨fun s hs => h1 s (by simp [hs]), fun s hs => h2 s (by simp [hs]),
    (List.nodup_cons.mp (by simpa using h3)).2,
    fun z hz => h4 z (by rw [suggestionTexts_cons]; exact List.mem_append.mpr (Or.inr hz)),
    h5.2.1⟩

theorem ListInv_set {Q : EvaluatedItem → Prop} {new : Suggestion}
    {usedT usedA : List String}
    (hnew_rep : ∃ it, Q it ∧ new = suggestion_of it)
    (hnew_t : ¬ new.target_url ∈ usedT)
    (hnew_a : ∀ a ∈ new.anchors, ¬ pyLower a.text ∈ usedA)
    (hnew_nodup : (new.anchors.map fun a => pyLower a.text).Nodup) :
    ∀ (l : List Suggestion) (idx : ℕ), ListInv Q l usedT usedA →
    ListInv Q (l.set idx new) (usedT ++ [new.target_url])
      (usedA ++ new.anchors.map fun a => pyLower a.text) := by
  intro l
  induction l with
  | nil =>
    intro idx h
    simpa using ListInv_mono h (fun t ht => by simp [ht]) (fun t ht => by simp [ht])
  | cons x t ih =>
    intro idx h
    match idx with
    | 0 =>
      have htail := ListInv_cons_elim h
      obtain ⟨h1, h2, h3, h4, h5⟩ := h
      rw [suggestionTexts_cons, List.nodup_append] at h5
      obtain ⟨t1, t2, t3, t4, t5⟩ := htail
      rw [List.set]
      refine ⟨?_, ?_, ?_, ?_, ?_⟩
      · intro s hs
        rcases List.mem_cons.mp hs with hs | hs
        · exact hs ▸ hnew_rep
        · exact t1 s hs
      · intro s hs
        rcases List.mem_cons.mp hs with hs | hs
        · subst hs; simp
        · exact List.mem_append.mpr (Or.inl (t2 s hs))
      · rw [List.map_cons, List.nodup_cons]
        refine ⟨?_, t3⟩
        intro hmem
        obtain ⟨s, hs, hsu⟩ := List.mem_map.mp hmem
        exact hnew_t (hsu ▸ t2 s hs)
      · intro z hz
        rw [suggestionTexts_cons] at hz
        rcases List.mem_append.mp hz with hz | hz
        · exact List.mem_append.mpr (Or.inr hz)
        · exact List.mem_append.mpr (Or.inl (t4 z hz))
      · rw [suggestionTexts_cons, List.nodup_append]
        refine ⟨hnew_nodup, t5, ?_⟩
        intro z hz hz2
        obtain ⟨a, ha, hal⟩ := List.mem_map.mp hz
        exact hnew_a a ha (hal ▸ t4 z hz2)
    | idx + 1 =>
      have htail := ListInv_cons_elim h
      obtain ⟨h1, h2, h3, h4, h5⟩ := h
      rw [suggestionTexts_cons, List.nodup_append] at h5
      have hrest := ih idx htail
      obtain ⟨r1, r2, r3, r4, r5⟩ := hrest
      rw [List.set]
      refine ⟨?_, ?_, ?_, ?_, ?_⟩
      · intro s hs
        rcases List.mem_cons.mp hs with hs | hs
        · exact hs ▸ h1 x (by simp)
        · exact r1 s hs
      · intro s hs
        rcases List.mem_cons.mp hs with hs | hs
        · rw [hs]
          exact List.mem_append.mpr (Or.inl (h2 x (by simp)))
        · exact r2 s hs
      · rw [List.map_cons, List.nodup_cons]
        refine ⟨?_, r3⟩
        intro hmem
        obtain ⟨s, hs, hsu⟩ := List.mem_map.mp hmem
        rcases List.mem_or_eq_of_mem_set hs with hs2 | hs2
        · have : x.target_url ∈ List.map (fun s => s.target_url) t :=
            List.mem_map.mpr ⟨s, hs2, hsu⟩
          exact (List.nodup_cons.mp (by simpa using h3)).1 this
        · subst hs2
          exact hnew_t (hsu ▸ h2 x (by simp))
      · intro z hz
        rw [suggestionTexts_cons] at hz
        rcases List.mem_append.mp hz with hz | hz
        · exact List.mem_append.mpr (Or.inl (h4 z (by
            rw [suggestionTexts_cons]; exact List.mem_append.mpr (Or.inl hz))))
        · exact r4 z hz
      · rw [suggestionTexts_cons, List.nodup_append]
        refine ⟨h5.1, r5, ?_⟩
        intro z hz hz2
        have hz' : z ∈ suggestionTexts (t.set idx new) := hz2
        have : z ∈ suggestionTexts t ∨
            z ∈ new.anchors.map fun a => pyLower a.text := by
          obtain ⟨s, hs, hzs⟩ := List.mem_flatMap.mp hz'
          rcases List.mem_or_eq_of_mem_set hs with hs2 | hs2
          · exact Or.inl (List.mem_flatMap.mpr ⟨s, hs2, hzs⟩)
          · subst hs2; exact Or.inr hzs
        rcases this with hcase | hcase
        · exact h5.2.2 hz hcase
        · obtain ⟨a, ha, hal⟩ := List.mem_map.mp hcase
          have : z ∈ usedA := by
            apply h4 z
            rw [suggestionTexts_cons]
            exact List.mem_append.mpr (Or.inl hz)
          exact hnew_a a ha (hal ▸ this)

theorem insert_or_replace_inv {Q : EvaluatedItem → Prop} {existing : List Suggestion}
    {new : Suggestion} {limit : ℤ} {usedT usedA : List String}
    (h : ListInv Q existing usedT usedA)
    (hnew_rep : ∃ it, Q it ∧ new = suggestion_of it)
    (hnew_t : ¬ new.target_url ∈ usedT)
    (hnew_a : ∀ a ∈ new.anchors, ¬ pyLower a.text ∈ usedA)
    (hnew_nodup : (new.anchors.map fun a => pyLower a.text).Nodup) :
    ListInv Q (insert_or_replace existing new limit) (usedT ++ [new.target_url])
      (usedA ++ new.anchors.map fun a => pyLower a.text) := by
  unfold insert_or_replace
  split
  · obtain ⟨it, hQ, hnew⟩ := hnew_rep
    subst hnew
    exact @SelInv_step Q ⟨existing, usedT, usedA, []⟩ it hQ hnew_nodup hnew_t
      ((conflicts_false_iff _ _).mpr hnew_a) h []
  · cases existing with
    | nil =>
      exact ListInv_mono h (fun t ht => by simp [ht]) (fun t ht => by simp [ht])
    | cons s rest =>
      dsimp only
      split
      · exact ListInv_set hnew_rep hnew_t hnew_a hnew_nodup (s :: rest) _ h
      · exact ListInv_mono h (fun t ht => by simp [ht]) (fun t ht => by simp [ht])

theorem backfill_insert_inv (Q : EvaluatedItem → Prop) (limit : ℤ)
    (l : List EvaluatedItem) (st : BackfillState)
    (hl : ∀ it ∈ l, Q it ∧ (it.anchors.map fun a => pyLower a.text).Nodup)
    (h : ListInv Q st.result st.used_targets st.used_anchor_texts) :
    ListInv Q (backfill_insert limit l st).result
      (backfill_insert limit l st).used_targets
      (backfill_insert limit l st).used_anchor_texts := by
  induction l generalizing st with
  | nil => simpa [backfill_insert] using h
  | cons item rest ih =>
    rw [backfill_insert]
    split
    · exact ih st (fun it hit => hl it (by simp [hit])) h
    · split
      · exact ih st (fun it hit => hl it (by simp [hit])) h
      · rename_i hti hai
        exact insert_or_replace_inv h ⟨item, (hl item (by simp)).1, rfl⟩ hti
          (by
            have := (conflicts_false_iff item.anchors st.used_anchor_texts).mp
              (by simpa using hai)
            exact this)
          (hl item (by simp)).2

theorem sublist_flatMap {l' l : List α} (h : l'.Sublist l) (f : α → List γ) :
    (l'.flatMap f).Sublist (l.flatMap f) := by
  induction h with
  | slnil => simp
  | cons a _ ih =>
    rw [List.flatMap_cons]
    exact ih.trans (List.sublist_append_right _ _)
  | cons₂ a _ ih =>
    rw [List.flatMap_cons, List.flatMap_cons]
    exact ih.append_left _

/-- The final properties survive a prefix (`pyTake`). -/
theorem ListInv_take {Q result usedT usedA} (h : ListInv Q result usedT usedA) (n : ℤ) :
    ListInv Q (pyTake result n) usedT usedA := by
  obtain ⟨h1, h2, h3, h4, h5⟩ := h
  have hsub : (pyTake result n).Sublist result := List.take_sublist _ _
  have hsubT : (suggestionTexts (pyTake result n)).Sublist (suggestionTexts result) :=
    sublist_flatMap hsub _
  refine ⟨fun s hs => h1 s (hsub.subset hs), fun s hs => h2 s (hsub.subset hs),
    ((hsub.map _).nodup h3), fun t ht => h4 t (hsubT.subset ht), hsubT.nodup h5⟩

/-- The final properties survive the final score sort (a permutation). -/
theorem ListInv_perm {Q : EvaluatedItem → Prop} {res res' : List Suggestion}
    {usedT usedA : List String}
    (hp : res'.Perm res) (h : ListInv Q res usedT usedA) :
    ListInv Q res' usedT usedA := by
  obtain ⟨h1, h2, h3, h4, h5⟩ := h
  have hpt : (suggestionTexts res').Perm (suggestionTexts res) := by
    unfold suggestionTexts
    exact List.Perm.flatMap_right _ hp
  refine ⟨fun s hs => h1 s (hp.subset hs), fun s hs => h2 s (hp.subset hs),
    ((hp.map _).nodup_iff).mpr h3, fun t ht => h4 t (hpt.subset ht),
    (hpt.nodup_iff).mpr h5⟩

/-- The three final-output properties. -/
def SuggProps (Q : EvaluatedItem → Prop) (l : List Suggestion) : Prop :=
  (∀ s ∈ l, ∃ it, Q it ∧ s = suggestion_of it) ∧
  (l.map (·.target_url)).Nodup ∧
  (suggestionTexts l).Nodup

theorem ListInv_props {Q l usedT usedA} (h : ListInv Q l usedT usedA) :
    SuggProps Q l :=
  ⟨h.1, h.2.2.1, h.2.2.2.2⟩

theorem ensure_hub_and_sibling_inv (Q : EvaluatedItem → Prop) (limit : ℤ)
    (selected : List Suggestion) (sib par : List EvaluatedItem)
    (usedT usedA roles : List String)
    (hsib : ∀ it ∈ sib, Q it ∧ (it.anchors.map fun a => pyLower a.text).Nodup)
    (hpar : ∀ it ∈ par, Q it ∧ (it.anchors.map fun a => pyLower a.text).Nodup)
    (h : ListInv Q selected usedT usedA) :
    (∃ uT uA, ListInv Q
      (ensure_hub_and_sibling selected sib par limit usedT usedA roles) uT uA) ∧
    (0 ≤ limit →
      ((ensure_hub_and_sibling selected sib par limit usedT usedA roles).length : ℤ)
        ≤ limit) := by
  unfold ensure_hub_and_sibling
  dsimp only
  have h1 : ∀ st1 : BackfillState,
      (st1 = (if ¬ ("parent" ∈ roles) then backfill_insert limit par ⟨selected, usedT, usedA⟩
        else ⟨selected, usedT, usedA⟩)) →
      ListInv Q st1.result st1.used_targets st1.used_anchor_texts := by
    intro st1 hst1
    subst hst1
    split
    · exact backfill_insert_inv Q limit par _ hpar h
    · exact h
  set st1 := (if ¬ ("parent" ∈ roles) then backfill_insert limit par ⟨selected, usedT, usedA⟩
    else (⟨selected, usedT, usedA⟩ : BackfillState)) with hst1def
  have h1' := h1 st1 rfl
  have h2 : ∀ st2 : BackfillState,
      (st2 = (if ¬ ("sibling" ∈ roles) then backfill_insert limit sib st1 else st1)) →
      ListInv Q st2.result st2.used_targets st2.used_anchor_texts := by
    intro st2 hst2
    subst hst2
    split
    · exact backfill_insert_inv Q limit sib _ hsib h1'
    · exact h1'
  set st2 := (if ¬ ("sibling" ∈ roles) then backfill_insert limit sib st1 else st1) with hst2def
  have h2' := h2 st2 rfl
  constructor
  · exact ⟨st2.used_targets, st2.used_anchor_texts, ListInv_take h2' limit⟩
  · intro hlim
    unfold pyTake
    rw [if_pos hlim]
    have := List.length_take_le limit.toNat st2.result
    omega

/-- Soundness of `_evaluate_candidates`: every returned suggestion is built
from an evaluated item of one of the candidates, target URLs are pairwise
distinct, and lowered anchor texts are globally pairwise distinct. -/
theorem evaluate_candidates_sound (source : Page) (candidates : List Page)
    (context : CorpusContext) (config : EngineConfig) :
    SuggProps (fun it => it.target ∈ candidates ∧ ItemOK source context config it)
      (evaluate_candidates source candidates context config).1 ∧
    (0 ≤ max_links_for_page source config →
      (((evaluate_candidates source candidates context config).1.length : ℤ) ≤
        max_links_for_page source config)) := by
  set Q : EvaluatedItem → Prop :=
    fun it => it.target ∈ candidates ∧ ItemOK source context config it with hQ
  have hl0 : ∀ it ∈ candidates.filterMap
      (fun target => evaluate_one source target context config),
      Q it ∧ (it.anchors.map fun a => pyLower a.text).Nodup := by
    intro it hit
    obtain ⟨t, ht, hev⟩ := List.mem_filterMap.mp hit
    obtain ⟨htgt, hok⟩ := evaluate_one_some hev
    refine ⟨⟨htgt ▸ ht, hok⟩, ?_⟩
    rw [hok.2.2.1]
    exact select_anchors_lower_nodup _ _ _
  have hl : ∀ it ∈ pySortDescBy (fun item => item.score)
      (candidates.filterMap (fun target => evaluate_one source target context config)),
      Q it ∧ (it.anchors.map fun a => pyLower a.text).Nodup := by
    intro it hit
    exact hl0 it ((pySortDescBy_perm _ _).subset hit)
  unfold evaluate_candidates
  dsimp only
  set evaluated := pySortDescBy (fun item => item.score)
    (candidates.filterMap (fun target => evaluate_one source target context config))
    with hev
  have hst : SelInv Q (greedy_select (max_links_for_page source config) evaluated
      ⟨[], [], [], []⟩) :=
    greedy_select_inv Q _ evaluated _ hl
      ⟨by simp, by simp, by simp, by simp [suggestionTexts], by simp [suggestionTexts]⟩
  have hens := ensure_hub_and_sibling_inv Q (max_links_for_page source config)
    (greedy_select (max_links_for_page source config) evaluated ⟨[], [], [], []⟩).selected
    (evaluated.filter fun item => item.role = "sibling")
    (evaluated.filter fun item => item.role = "parent")
    (greedy_select (max_links_for_page source config) evaluated ⟨[], [], [], []⟩).used_targets
    (greedy_select (max_links_for_page source config) evaluated ⟨[], [], [], []⟩).used_anchor_texts
    (greedy_select (max_links_for_page source config) evaluated ⟨[], [], [], []⟩).selected_roles
    (fun it hit => hl it (List.mem_of_mem_filter hit))
    (fun it hit => hl it (List.mem_of_mem_filter hit))
    hst
  obtain ⟨⟨uT, uA, hinv⟩, hlen⟩ := hens
  constructor
  · exact ListInv_props (ListInv_perm (pySortDescBy_perm _ _) hinv)
  · intro hb
    have := hlen hb
    rwa [(pySortDescBy_perm (fun s : Suggestion => s.score) _).length_eq]

theorem if_chain_eq_some {A B : Prop} [Decidable A] [Decidable B] {v : ℝ × Page}
    {pair : ℝ × Page}
    (h : (if A then none else if B then none else some v) = some pair) : pair = v := by
  split at h
  · cases h
  · split at h
    · cases h
    · simp only [Option.some.injEq] at h
      exact h.symm

theorem generate_candidates_subset (source : Page) (corpus : List Page)
    (context : CorpusContext) (config : EngineConfig) :
    ∀ p ∈ generate_candidates source corpus context config, p ∈ corpus := by
  unfold generate_candidates
  dsimp only
  intro p hp
  obtain ⟨pair, hpair, hp2⟩ := List.mem_map.mp hp
  have h1 := (List.take_sublist _ _).subset hpair
  have h2 := (pySortDescBy_perm (fun p : ℝ × Page => p.1) _).subset h1
  obtain ⟨cand, hcand, hsome⟩ := List.mem_filterMap.mp h2
  have hpv : pair = (recall_score source cand context
      (if corpus.length = 0 then 1 else corpus.length), cand) :=
    if_chain_eq_some hsome
  rw [hpv] at hp2
  rw [← hp2]
  exact hcand

/-- C1: the suggestion list of `suggest_links` has pairwise distinct target
URLs, and none of them is the source page's own URL — including the
parent/sibling backfill phase, which is part of `evaluate_candidates`. -/
theorem C1_targets_distinct_and_not_self (page : Page) (corpus : List Page)
    (config : Option EngineConfig) :
    ((suggest_links page corpus config).map (·.target_url)).Nodup ∧
    ∀ s ∈ suggest_links page corpus config, s.target_url ≠ page.url := by
  unfold suggest_links
  dsimp only
  obtain ⟨⟨hrep, hnodup, _⟩, _⟩ := evaluate_candidates_sound page
    (generate_candidates page corpus (build_corpus_context corpus) (config.getD load_config))
    (build_corpus_context corpus) (config.getD load_config)
  refine ⟨hnodup, ?_⟩
  intro s hs
  obtain ⟨it, ⟨_, hok⟩, hsug⟩ := hrep s hs
  rw [hsug]
  exact (allow_candidate_facts hok.1).1

/-- C3: across the whole result of `suggest_links` — inside each
suggestion and across different suggestions — the Python-lowered (case
insensitive) anchor texts are pairwise distinct. -/
theorem C3_anchor_texts_distinct (page : Page) (corpus : List Page)
    (config : Option EngineConfig) :
    (suggestionTexts (suggest_links page corpus config)).Nodup := by
  unfold suggest_links
  dsimp only
  exact (evaluate_candidates_sound page
    (generate_candidates page corpus (build_corpus_context corpus) (config.getD load_config))
    (build_corpus_context corpus) (config.getD load_config)).1.2.2

theorem max_links_formula (page : Page) (config : EngineConfig) :
    max_links_for_page page config =
      min ((config.base_links_per_page).getD 3 +
          (((pySplitWs page.text).length / 500 : ℕ) : ℤ))
        ((config.max_links_per_page).getD 12) := by
  unfold max_links_for_page
  dsimp only
  congr 2
  rcases Nat.eq_zero_or_pos (pySplitWs page.text).length with h | h
  · rw [h]
    norm_num
  · rw [max_eq_left h]

/-- C4: the number of suggestions is at most the link budget
`min(base_links_per_page + floor(source_word_count / 500),
max_links_per_page)` (word count = whitespace split of the plain text;
the configured base and cap are taken non-negative, as §7 of the spec
places negative limits outside the configuration contract). -/
theorem C4_length_le_budget (page : Page) (corpus : List Page) (config : EngineConfig)
    (hbase : 0 ≤ (config.base_links_per_page).getD 3)
    (hmax : 0 ≤ (config.max_links_per_page).getD 12) :
    ((suggest_links page corpus (some config)).length : ℤ) ≤
      min ((config.base_links_per_page).getD 3 +
          (((pySplitWs page.text).length / 500 : ℕ) : ℤ))
        ((config.max_links_per_page).getD 12) := by
  have hb : 0 ≤ max_links_for_page page config := by
    rw [max_links_formula]
    exact le_min (by positivity) hmax
  have := (evaluate_candidates_sound page
    (generate_candidates page corpus (build_corpus_context corpus) config)
    (build_corpus_context corpus) config).2 hb
  rw [← max_links_formula]
  exact this

/-- C4 witness: at the default configuration both limits are non-negative
and the empty corpus stays within budget. -/
theorem C4_length_le_budget_witness :
    0 ≤ (defaultConfig.base_links_per_page).getD 3 ∧
    0 ≤ (defaultConfig.max_links_per_page).getD 12 ∧
    ((suggest_links
        { url := "https://example.com/a", title := "A", html := "", text := "alpha beta",
          lang := some "en", tags := [], ptype := "blog", published_at := none,
          canonical := none, noindex := false, nofollow := false }
        [] (some defaultConfig)).length : ℤ) ≤
      min ((defaultConfig.base_links_per_page).getD 3 +
          (((pySplitWs ("alpha beta" : String)).length / 500 : ℕ) : ℤ))
        ((defaultConfig.max_links_per_page).getD 12) :=
  ⟨by decide, by decide,
    C4_length_le_budget
      { url := "https://example.com/a", title := "A", html := "", text := "alpha beta",
        lang := some "en", tags := [], ptype := "blog", published_at := none,
        canonical := none, noindex := false, nofollow := false }
      [] defaultConfig (by decide) (by decide)⟩

/-- C5: `score_candidate` is the clamped logistic of weighted features
minus weighted penalties and lies strictly between 0 and 1; consequently
every suggestion's score lies in [0, 1]. -/
theorem C5_score_logistic_and_bounded :
    (∀ (features : List (String × ℝ)) (config : EngineConfig),
      score_candidate features config =
        logistic
          ((features.map fun p => ((feature_weight config p.1 : ℚ) : ℝ) * p.2).sum -
           (features.map fun p => ((penalty_weight config p.1 : ℚ) : ℝ) * p.2).sum) ∧
      0 < score_candidate features config ∧ score_candidate features config < 1) ∧
    (∀ (page : Page) (corpus : List Page) (config : Option EngineConfig),
      ∀ s ∈ suggest_links page corpus config, 0 ≤ s.score ∧ s.score ≤ 1) := by
  constructor
  · intro features config
    refine ⟨score_candidate_eq features config, ?_, ?_⟩
    · rw [score_candidate_eq]
      exact logistic_pos _
    · rw [score_candidate_eq]
      exact logistic_lt_one _
  · intro page corpus config s hs
    unfold suggest_links at hs
    dsimp only at hs
    obtain ⟨⟨hrep, _, _⟩, _⟩ := evaluate_candidates_sound page
      (generate_candidates page corpus (build_corpus_context corpus) (config.getD load_config))
      (build_corpus_context corpus) (config.getD load_config)
    obtain ⟨it, ⟨_, hok⟩, hsug⟩ := hrep s hs
    have hsc : s.score = score_candidate
        (compute_features page it.target (build_corpus_context corpus)
          (config.getD load_config)) (config.getD load_config) := by
      rw [hsug]
      exact hok.2.1
    rw [hsc, score_candidate_eq]
    exact ⟨le_of_lt (logistic_pos _), le_of_lt (logistic_lt_one _)⟩

/-- C6: with `allow_cross_language` unset, no suggested target page has
`noindex = true`: every suggestion's target URL belongs to a corpus page
(the one that was evaluated) whose noindex flag is false. -/
theorem C6_noindex_never_suggested (page : Page) (corpus : List Page)
    (config : EngineConfig) (hcross : config.allow_cross_language = none) :
    ∀ s ∈ suggest_links page corpus (some config),
      ∃ p ∈ corpus, p.url = s.target_url ∧ p.noindex = false := by
  intro s hs
  unfold suggest_links at hs
  dsimp only at hs
  obtain ⟨⟨hrep, _, _⟩, _⟩ := evaluate_candidates_sound page
    (generate_candidates page corpus (build_corpus_context corpus) config)
    (build_corpus_context corpus) config
  obtain ⟨it, ⟨hmem, hok⟩, hsug⟩ := hrep s hs
  refine ⟨it.target, generate_candidates_subset _ _ _ _ _ hmem, ?_, ?_⟩
  · rw [hsug]
    rfl
  · exact (allow_candidate_facts hok.1).2

/-- C6 witness: the default configuration leaves `allow_cross_language`
unset, and the guarantee holds for a concrete run. -/
theorem C6_noindex_never_suggested_witness :
    defaultConfig.allow_cross_language = none ∧
    (∀ s ∈ suggest_links
        { url := "https://example.com/a", title := "A", html := "", text := "alpha beta",
          lang := some "en", tags := [], ptype := "blog", published_at := none,
          canonical := none, noindex := false, nofollow := false }
        [] (some defaultConfig),
      ∃ p ∈ ([] : List Page), p.url = s.target_url ∧ p.noindex = false) :=
  ⟨rfl, C6_noindex_never_suggested
    { url := "https://example.com/a", title := "A", html := "", text := "alpha beta",
      lang := some "en", tags := [], ptype := "blog", published_at := none,
      canonical := none, noindex := false, nofollow := false }
    [] defaultConfig rfl⟩

/-- C9: with an empty corpus `suggest_links` returns the empty list for
any source page and configuration, and `dry_run` over an empty batch
returns metrics with coverage 0 and anchor-diversity 0 instead of
failing. -/
theorem C9_empty_corpus_and_empty_batch :
    (∀ (page : Page) (config : Option EngineConfig),
      suggest_links page [] config = []) ∧
    (∀ (corpus : List Page) (config : Option EngineConfig),
      (dry_run [] corpus config).coverage = 0 ∧
      (dry_run [] corpus config).anchor_diversity_index = 0) := by
  constructor
  · intro page config
    unfold suggest_links evaluate_candidates ensure_hub_and_sibling generate_candidates
    dsimp only
    simp [pyTake, pySortDescBy, greedy_select, backfill_insert]
  · intro corpus config
    unfold dry_run
    dsimp only
    constructor
    · simp
    · simp [shannon_entropy]

/-- C7 counterexample input: a source page that mentions the target's tag
and a target page whose own title/body do not. -/
def c7source : Page :=
  { url := "https://example.com/src", title := "Try Acme Today", html := "",
    text := "try acme today", lang := some "en", tags := [], ptype := "blog",
    published_at := none, canonical := none, noindex := false, nofollow := false }

/-- C7 counterexample target: tagged "acme" but never mentioning it. -/
def c7target : Page :=
  { url := "https://example.com/tgt", title := "Widget Guide", html := "",
    text := "widgets galore", lang := some "en", tags := ["acme"], ptype := "blog",
    published_at := none, canonical := none, noindex := false, nofollow := false }

/-- C7 counterexample: the claim — a tag-variant phrase is created exactly
when the tag occurs (case-insensitively) in the SOURCE's title or body —
fails here: "acme" occurs in the source title, yet no tag phrase is
created, because the code tests the TARGET's title and body. -/
theorem C7_counterexample :
    ¬ ((("acme", "tag") ∈ tag_phrases c7target) ↔
        (pySubstr (pyLower "acme") (pyLower c7source.title) = true ∨
         pySubstr (pyLower "acme") (pyLower c7source.text) = true)) := by
  decide

/-- C7 amended: `extract_candidate_anchors` creates the tag-variant anchor
phrase `candidate.replace("-", " ")` for a target tag exactly when the
stripped tag is non-empty and appears, as a case-insensitive substring, in
the TARGET page's title or body text. -/
theorem C7_amended_tag_phrase_iff (target : Page) (p : String × String) :
    p ∈ tag_phrases target ↔
      ∃ tag ∈ target.tags, pyStrip tag ≠ "" ∧
        (pySubstr (pyLower (pyStrip tag)) (pyLower target.title) = true ∨
         pySubstr (pyLower (pyStrip tag)) (pyLower target.text) = true) ∧
        p = (pyReplaceDash (pyStrip tag), "tag") := by
  unfold tag_phrases
  rw [List.mem_filterMap]
  constructor
  · rintro ⟨tag, htag, hsome⟩
    refine ⟨tag, htag, ?_⟩
    dsimp only at hsome
    split at hsome
    · cases hsome
    · rename_i hne
      split at hsome
      · cases hsome
      · rename_i hsub
        rw [not_and_or, not_not, not_not] at hsub
        simp only [Option.some.injEq] at hsome
        exact ⟨hne, by simpa using hsub, hsome.symm⟩
  · rintro ⟨tag, htag, hne, hsub, hp⟩
    refine ⟨tag, htag, ?_⟩
    dsimp only
    rw [if_neg hne, if_neg, hp]
    rw [not_and_or, not_not, not_not]
    simpa using hsub

/-- C7 amended, witness: for the counterexample pages the tag phrase set
is empty, matching the target-side characterization. -/
theorem C7_amended_tag_phrase_iff_witness :
    (("acme", "tag") ∈ tag_phrases c7target ↔
      ∃ tag ∈ c7target.tags, pyStrip tag ≠ "" ∧
        (pySubstr (pyLower (pyStrip tag)) (pyLower c7target.title) = true ∨
         pySubstr (pyLower (pyStrip tag)) (pyLower c7target.text) = true) ∧
        ("acme", "tag") = (pyReplaceDash (pyStrip tag), "tag")) :=
  C7_amended_tag_phrase_iff c7target ("acme", "tag")

/-! ### The second anchor-selection pass -/

theorem mem_foldl_setAdd [DecidableEq α] (l acc : List α) (x : α) :
    x ∈ l.foldl setAdd acc ↔ x ∈ acc ∨ x ∈ l := by
  induction l generalizing acc with
  | nil => simp
  | cons y t ih =>
    rw [List.foldl_cons, ih]
    unfold setAdd
    split
    · rename_i hy
      constructor
      · rintro (h | h)
        · exact Or.inl h
        · simp [h]
      · rintro (h | h)
        · exact Or.inl h
        · rcases List.mem_cons.mp h with h | h
          · exact Or.inl (h ▸ hy)
          · exact Or.inr h
    · constructor
      · rintro (h | h)
        · rcases List.mem_append.mp h with h | h
          · exact Or.inl h
          · simp at h
            simp [h]
        · simp [h]
      · rintro (h | h)
        · exact Or.inl (List.mem_append.mpr (Or.inl h))
        · rcases List.mem_cons.mp h with h | h
          · exact Or.inl (by simp [h])
          · exact Or.inr h

theorem select_pass1_mono (limit ea : ℤ) (l : List (ℚ × Anchor)) (st : Pass1State) :
    (∀ x ∈ st.selected, x ∈ (select_pass1 limit ea l st).selected) ∧
    (∀ t ∈ st.used_texts, t ∈ (select_pass1 limit ea l st).used_texts) := by
  induction l generalizing st with
  | nil => simp [select_pass1]
  | cons qa rest ih =>
    obtain ⟨q, a⟩ := qa
    rw [select_pass1]
    split
    · simp
    · split
      · exact ih st
      · split
        · exact ih st
        · constructor
          · intro x hx
            exact (ih _).1 x (List.mem_append.mpr (Or.inl hx))
          · intro t ht
            exact (ih _).2 t (List.mem_append.mpr (Or.inl ht))

/-- After a first pass that ended under the limit (so it examined every
ranked anchor), each anchor is selected, or its normalized text is used,
or it is an `exact` anchor blocked by the cap while an `exact` anchor is
already selected. -/
theorem select_pass1_post (limit ea : ℤ) (l : List (ℚ × Anchor)) (st : Pass1State)
    (hea : 1 ≤ ea)
    (hexinv : 0 < st.exact_count → ∃ b ∈ st.selected, b.variant = "exact")
    (hfinal : ((select_pass1 limit ea l st).selected.length : ℤ) < limit) :
    ∀ qa ∈ l, qa.2 ∈ (select_pass1 limit ea l st).selected ∨
      anchorNorm qa.2 ∈ (select_pass1 limit ea l st).used_texts ∨
      (qa.2.variant = "exact" ∧
        ∃ b ∈ (select_pass1 limit ea l st).selected, b.variant = "exact") := by
  induction l generalizing st with
  | nil => simp
  | cons qa0 rest ih =>
    obtain ⟨q, a⟩ := qa0
    rw [select_pass1] at hfinal ⊢
    by_cases hb : (st.selected.length : ℤ) ≥ limit
    · rw [if_pos hb] at hfinal ⊢
      exact absurd hfinal (by omega)
    · rw [if_neg hb] at hfinal ⊢
      by_cases hused : anchorNorm a ∈ st.used_texts
      · rw [if_pos hused] at hfinal ⊢
        intro qa hqa
        rcases List.mem_cons.mp hqa with hqa | hqa
        · subst hqa
          exact Or.inr (Or.inl ((select_pass1_mono limit ea rest st).2 _ hused))
        · exact ih st hexinv hfinal qa hqa
      · rw [if_neg hused] at hfinal ⊢
        by_cases hcap : a.variant = "exact" ∧ (st.exact_count : ℤ) ≥ ea
        · rw [if_pos hcap] at hfinal ⊢
          intro qa hqa
          rcases List.mem_cons.mp hqa with hqa | hqa
          · subst hqa
            obtain ⟨b, hbsel, hbex⟩ := hexinv (by
              have := hcap.2
              omega)
            exact Or.inr (Or.inr ⟨hcap.1,
              b, (select_pass1_mono limit ea rest st).1 b hbsel, hbex⟩)
          · exact ih st hexinv hfinal qa hqa
        · rw [if_neg hcap] at hfinal ⊢
          intro qa hqa
          rcases List.mem_cons.mp hqa with hqa | hqa
          · subst hqa
            exact Or.inl ((select_pass1_mono limit ea rest _).1 a (by simp))
          · refine ih _ ?_ hfinal qa hqa
            intro hpos
            by_cases hax : a.variant = "exact"
            · exact ⟨a, by simp, hax⟩
            · simp only [hax, if_false] at hpos
              obtain ⟨b, hbsel, hbex⟩ := hexinv (by simpa using hpos)
              exact ⟨b, List.mem_append.mpr (Or.inl hbsel), hbex⟩

/-- The second pass never adds an anchor: every ranked anchor is either
already selected, normalized-text-used, or an `exact` anchor while `exact`
is among the selected variants. -/
theorem select_pass2_noop (limit : ℤ) (st : Pass2State)
    (hvar : ∀ b ∈ st.selected, b.variant ∈ st.selected_variants) :
    ∀ l : List (ℚ × Anchor),
    (∀ qa ∈ l, qa.2 ∈ st.selected ∨ anchorNorm qa.2 ∈ st.used_texts ∨
      (qa.2.variant = "exact" ∧ ∃ b ∈ st.selected, b.variant = "exact")) →
    select_pass2 limit l st = st := by
  intro l
  induction l with
  | nil =>
    intro _
    rw [select_pass2]
  | cons qa0 rest ih =>
    intro hz
    obtain ⟨q, a⟩ := qa0
    rw [select_pass2]
    by_cases hb : (st.selected.length : ℤ) ≥ limit
    · rw [if_pos hb]
    · rw [if_neg hb]
      by_cases hg1 : a ∈ st.selected ∨ a.variant ∈ st.selected_variants
      · rw [if_pos hg1]
        exact ih fun qa hqa => hz qa (by simp [hqa])
      · rw [if_neg hg1]
        have hnorm : anchorNorm a ∈ st.used_texts := by
          rcases hz (q, a) (by simp) with h | h | h
          · exact absurd (Or.inl h) hg1
          · exact h
          · obtain ⟨hax, b, hbsel, hbex⟩ := h
            refine absurd (Or.inr ?_) hg1
            rw [hax, ← hbex]
            exact hvar b hbsel
        rw [if_pos hnorm]
        exact ih fun qa hqa => hz qa (by simp [hqa])

/-- C8 amended: the second greedy pass of `select_anchors` is attempted
exactly when the first pass ends under the limit — regardless of whether
the selected anchors share one variant — and it never adds an anchor, so
the final selection is exactly the first pass's (sorted by position); in
particular it adds at most one anchor of a different variant, vacuously. -/
theorem C8_amended_second_pass (source : Page) (anchors : List Anchor)
    (cfg : EngineConfig) :
    select_anchors source anchors cfg =
      (if anchors = [] then [] else
        pySortAscBy (fun a => a.start)
          (select_pass1 ((cfg.max_anchors_per_target).getD 2)
            (max 1 (pyTrunc (((cfg.max_anchors_per_target).getD 2 : ℚ) * (4/10))))
            (select_ranked source anchors) ⟨[], [], 0⟩).selected) ∧
    (select_second_pass_triggered source anchors cfg = true ↔
      ((select_pass1 ((cfg.max_anchors_per_target).getD 2)
          (max 1 (pyTrunc (((cfg.max_anchors_per_target).getD 2 : ℚ) * (4/10))))
          (select_ranked source anchors) ⟨[], [], 0⟩).selected.length : ℤ) <
        (cfg.max_anchors_per_target).getD 2) := by
  constructor
  · by_cases han : anchors = []
    · unfold select_anchors
      rw [if_pos han, if_pos han]
    · unfold select_anchors
      rw [if_neg han, if_neg han]
      dsimp only
      set limit : ℤ := (cfg.max_anchors_per_target).getD 2 with hlimit
      set ea : ℤ := max 1 (pyTrunc ((limit : ℚ) * (4/10))) with hea
      set ranked := select_ranked source anchors with hranked
      set st1 := select_pass1 limit ea ranked ⟨[], [], 0⟩ with hst1
      by_cases htrig : (st1.selected.length : ℤ) < limit
      · rw [if_pos htrig]
        have hpost := select_pass1_post limit ea ranked ⟨[], [], 0⟩
          (le_max_left _ _) (by simp) htrig
        have hnoop := select_pass2_noop limit
          ⟨st1.selected, st1.used_texts, (st1.selected.map (·.variant)).foldl setAdd []⟩
          (fun b hb => (mem_foldl_setAdd _ _ _).mpr
            (Or.inr (List.mem_map.mpr ⟨b, hb, rfl⟩)))
          ranked (fun qa hqa => hpost qa hqa)
        rw [hnoop]
      · rw [if_neg htrig]
  · unfold select_second_pass_triggered
    dsimp only
    simp [decide_eq_true_eq]

theorem pySortDescBy_pair [LinearOrder β] (key : α → β) (x y : α) :
    pySortDescBy key [x, y] = [x, y] ∨ pySortDescBy key [x, y] = [y, x] := by
  by_cases h : key y ≤ key x
  · left
    simp [pySortDescBy, stableInsertGE, h]
  · right
    simp [pySortDescBy, stableInsertGE, h]

theorem select_pass1_pair (ea : ℤ) (hea : 1 ≤ ea) (s1 s2 : ℚ) (x y : Anchor)
    (hxy : ¬ (x.variant = "exact" ∧ y.variant = "exact"))
    (hnorm : ¬ anchorNorm y = anchorNorm x) :
    (select_pass1 3 ea [(s1, x), (s2, y)] ⟨[], [], 0⟩).selected = [x, y] := by
  rw [select_pass1]
  rw [if_neg (by simp)]
  rw [if_neg (by simp)]
  rw [if_neg (by
    rintro ⟨_, h2⟩
    simp at h2
    omega)]
  rw [select_pass1]
  rw [if_neg (by simp)]
  rw [if_neg (by simpa using hnorm)]
  rw [if_neg (by
    rintro ⟨h1, h2⟩
    have hx : ¬ x.variant = "exact" := fun hx => hxy ⟨hx, h1⟩
    simp [hx] at h2
    omega)]
  rw [select_pass1]
  simp

/-- C8 counterexample source page (31 characters of text). -/
def c8source : Page :=
  { url := "https://example.com/c8", title := "C8", html := "",
    text := "alpha beta plus gamma delta xyz", lang := some "en", tags := [],
    ptype := "blog", published_at := none, canonical := none, noindex := false,
    nofollow := false }

/-- C8 counterexample: an `exact` anchor and a `partial` anchor at distinct
spans with distinct texts. -/
def c8a1 : Anchor := { text := "alpha beta", start := 0, endPos := 10, variant := "exact" }

/-- Second anchor of the C8 counterexample. -/
def c8a2 : Anchor := { text := "gamma delta", start := 16, endPos := 27, variant := "partial" }

/-- C8 counterexample configuration: three anchors per target. -/
def c8config : EngineConfig := { max_anchors_per_target := some 3 }

/-- C8 counterexample: the second pass runs (the selection is under the
limit) although the selected anchors do NOT all share one variant — the
claim's trigger condition "only when … all already-selected anchors share
a single variant" is false on this input. -/
theorem C8_counterexample :
    select_second_pass_triggered c8source [c8a1, c8a2] c8config = true ∧
    ¬ ∃ v, ∀ a ∈ (select_pass1 ((c8config.max_anchors_per_target).getD 2)
        (max 1 (pyTrunc (((c8config.max_anchors_per_target).getD 2 : ℤ) * (4/10) : ℚ)))
        (select_ranked c8source [c8a1, c8a2]) ⟨[], [], 0⟩).selected,
      a.variant = v := by
  have hr : select_ranked c8source [c8a1, c8a2] =
      pySortDescBy (fun p => p.1)
        [(anchor_score c8a1 31, c8a1), (anchor_score c8a2 31, c8a2)] := rfl
  have hea : (1 : ℤ) ≤ max 1 (pyTrunc (((c8config.max_anchors_per_target).getD 2 : ℤ)
      * (4/10) : ℚ)) := le_max_left _ _
  have hsel : (select_pass1 ((c8config.max_anchors_per_target).getD 2)
      (max 1 (pyTrunc (((c8config.max_anchors_per_target).getD 2 : ℤ) * (4/10) : ℚ)))
      (select_ranked c8source [c8a1, c8a2]) ⟨[], [], 0⟩).selected = [c8a1, c8a2] ∨
      (select_pass1 ((c8config.max_anchors_per_target).getD 2)
      (max 1 (pyTrunc (((c8config.max_anchors_per_target).getD 2 : ℤ) * (4/10) : ℚ)))
      (select_ranked c8source [c8a1, c8a2]) ⟨[], [], 0⟩).selected = [c8a2, c8a1] := by
    rw [hr]
    rcases pySortDescBy_pair (fun p : ℚ × Anchor => p.1)
      (anchor_score c8a1 31, c8a1) (anchor_score c8a2 31, c8a2) with hp | hp
    · rw [hp]
      left
      exact select_pass1_pair _ hea _ _ _ _ (by decide) (by decide)
    · rw [hp]
      right
      exact select_pass1_pair _ hea _ _ _ _ (by decide) (by decide)
  constructor
  · unfold select_second_pass_triggered
    dsimp only
    rcases hsel with hs | hs <;> rw [hs] <;> decide
  · rintro ⟨v, hv⟩
    rcases hsel with hs | hs <;> rw [hs] at hv
    · have h1 := hv c8a1 (by simp)
      have h2 := hv c8a2 (by simp)
      rw [← h2] at h1
      exact absurd h1 (by decide)
    · have h1 := hv c8a1 (by simp)
      have h2 := hv c8a2 (by simp)
      rw [← h2] at h1
      exact absurd h1 (by decide)

/-! ### C2: anchor offsets index the lower-cased text

Python's `str.lower` maps U+0130 to two code points, so the lower-cased
source text is longer than the original; `re.finditer` spans therefore
overshoot the original text. -/

/-- C2 failing source page: its text "İ acme prime lens" has 17
characters, but lower-cases to 18. -/
def c2source : Page :=
  { url := "https://example.com/c2s", title := "", html := "",
    text := "İ acme prime lens", lang := some "en", tags := ["k"], ptype := "blog",
    published_at := none, canonical := none, noindex := false, nofollow := false }

/-- C2 target page: its title matches the tail of the source text. -/
def c2target : Page :=
  { url := "https://example.com/c2t", title := "Acme Prime Lens", html := "",
    text := "zz", lang := some "en", tags := ["k"], ptype := "blog",
    published_at := none, canonical := none, noindex := false, nofollow := false }

/-- C2 configuration: score floor 0 (so the logistic score always passes)
and a small candidate cap. -/
def c2config : EngineConfig :=
  { max_candidates := some 5, score_floor := some 0 }

/-- The out-of-bounds anchor: span `(3, 18)` in an original text of
length 17. -/
def c2exact : Anchor :=
  { text := "cme prime lens", start := 3, endPos := 18, variant := "exact" }

/-- The same span under the `partial` variant. -/
def c2partial : Anchor :=
  { text := "cme prime lens", start := 3, endPos := 18, variant := "partial" }

theorem c2_extract :
    extract_candidate_anchors c2source c2target = [c2exact, c2partial] := by
  decide

theorem c2_anchor_score_cmp :
    ¬ (anchor_score c2partial 17 > anchor_score c2exact 17) := by
  have hsplit : (pySplitWs ("cme prime lens" : String)).length = 3 := rfl
  unfold anchor_score
  rw [show alGet VARIANT_PRIORITY c2partial.variant (1/2) = 8/10 from rfl,
    show alGet VARIANT_PRIORITY c2exact.variant (1/2) = 95/100 from rfl,
    show c2partial.start = 3 from rfl, show c2exact.start = 3 from rfl,
    show c2partial.text = "cme prime lens" from rfl,
    show c2exact.text = "cme prime lens" from rfl, hsplit]
  norm_num

theorem c2_select_ranked :
    select_ranked c2source [c2exact, c2partial] =
      [(anchor_score c2exact 17, c2exact)] := by
  have h1 : select_ranked c2source [c2exact, c2partial] =
      pySortDescBy (fun p => p.1) (List.map (fun x => x.2)
        (if anchor_score c2partial 17 > anchor_score c2exact 17 then
          alSetK [((3, 18), (anchor_score c2exact 17, c2exact))] (3, 18)
            (anchor_score c2partial 17, c2partial)
        else [((3, 18), (anchor_score c2exact 17, c2exact))])) := rfl
  rw [h1, if_neg c2_anchor_score_cmp]
  rfl

theorem select_pass1_single (ea : ℤ) (hea : 1 ≤ ea) (s1 : ℚ) (x : Anchor) :
    select_pass1 2 ea [(s1, x)] ⟨[], [], 0⟩ =
      ⟨[x], [anchorNorm x], if x.variant = "exact" then 1 else 0⟩ := by
  rw [select_pass1]
  rw [if_neg (by simp)]
  rw [if_neg (by simp)]
  rw [if_neg (by
    rintro ⟨_, h⟩
    simp at h
    omega)]
  rw [select_pass1]
  simp

theorem select_pass2_single_mem (limit : ℤ) (q : ℚ) (x : Anchor) (st : Pass2State)
    (hmem : x ∈ st.selected) : select_pass2 limit [(q, x)] st = st := by
  rw [select_pass2]
  by_cases hb : (st.selected.length : ℤ) ≥ limit
  · rw [if_pos hb]
  · rw [if_neg hb, if_pos (Or.inl hmem), select_pass2]

theorem c2_select :
    select_anchors c2source [c2exact, c2partial] c2config = [c2exact] := by
  unfold select_anchors
  rw [if_neg (by simp)]
  dsimp only
  rw [c2_select_ranked]
  rw [show ((c2config.max_anchors_per_target).getD 2 : ℤ) = 2 from rfl]
  rw [select_pass1_single _ (le_max_left _ _) _ _]
  rw [if_pos (by norm_num)]
  rw [select_pass2_single_mem _ _ _ _ (by simp)]
  simp [pySortAscBy, stableInsertLE]

/-- The evaluated item produced for the C2 pair. -/
noncomputable def c2item : EvaluatedItem :=
  { target := c2target
    features := compute_features c2source c2target (build_corpus_context [c2target]) c2config
    score := score_candidate
      (compute_features c2source c2target (build_corpus_context [c2target]) c2config) c2config
    anchors := [c2exact]
    risk_flags := []
    placement := "body"
    reason := score_reason
      (compute_features c2source c2target (build_corpus_context [c2target]) c2config) c2config
    role := "sibling" }

theorem c2_floor (f : List (String × ℝ)) :
    ¬ (score_candidate f c2config < (((c2config.score_floor).getD (4/10) : ℚ) : ℝ)) := by
  rw [show ((c2config.score_floor).getD (4/10) : ℚ) = 0 from rfl]
  rw [score_candidate_eq]
  simp only [Rat.cast_zero]
  exact not_lt.mpr (le_of_lt (logistic_pos _))

theorem c2_evaluate_one :
    evaluate_one c2source c2target (build_corpus_context [c2target]) c2config =
      some c2item := by
  unfold evaluate_one
  rw [if_neg (by
    have hallow : allow_candidate c2source c2target c2config = true := by decide
    simp [hallow])]
  dsimp only
  rw [if_neg (c2_floor _)]
  rw [c2_extract, c2_select]
  rw [if_neg (by simp)]
  rw [if_neg (by
    rw [show risk_flags c2source c2target c2config = [] from rfl]
    simp [alGet])]
  rfl

theorem bm25_nil (document_tf : List (String × ℕ)) (dl : ℕ) (adl : ℝ)
    (df : List (String × ℕ)) (td : ℕ) :
    bm25 [] document_tf dl adl df td = 0 := rfl

theorem bm25_absent (document_tf : List (String × ℕ)) (dl : ℕ) (adl : ℝ)
    (df : List (String × ℕ)) (td : ℕ) (q : List String)
    (h : ∀ t ∈ q, alMem document_tf t = false) :
    bm25 q document_tf dl adl df td = 0 := by
  unfold bm25
  suffices hgen : ∀ (q : List String), (∀ t ∈ q, alMem document_tf t = false) →
      ∀ acc : ℝ, q.foldl
        (fun score term =>
          if alMem document_tf term then
            score + Real.log (1 + ((td : ℝ) - (alGet df term 0 : ℕ) + 1/2) /
              ((alGet df term 0 : ℕ) + 1/2)) * (alGet document_tf term 0 : ℕ) * (3/2 + 1) /
              ((alGet document_tf term 0 : ℕ) + 3/2 * (1 - 3/4 + 3/4 * (dl : ℝ) /
                (if adl = 0 then 1 else adl)))
          else score) acc = acc by
    exact hgen q h 0
  intro q hq
  induction q with
  | nil => intro acc; rfl
  | cons t rest ih =>
    intro acc
    rw [List.foldl_cons]
    rw [if_neg (show ¬ (alMem document_tf t = true) from by
      simp [hq t (List.mem_cons_self t rest)])]
    exact ih (fun u hu => hq u (by simp [hu])) acc

theorem c2_semantic :
    cosine_similarity [("acme", 1), ("prime", 1), ("lens", 1)] [("zz", 1)] = 0 := by
  unfold cosine_similarity
  rw [if_neg (by simp)]
  dsimp only
  have hdot : List.foldl
      (fun (acc : ℝ) (p : String × ℕ) =>
        acc + (p.2 : ℝ) * ((alGet [("zz", 1)] p.1 0 : ℕ) : ℝ))
      0 [("acme", 1), ("prime", 1), ("lens", 1)] = 0 := by
    have h1 : alGet [("zz", (1 : ℕ))] "acme" 0 = 0 := rfl
    have h2 : alGet [("zz", (1 : ℕ))] "prime" 0 = 0 := rfl
    have h3 : alGet [("zz", (1 : ℕ))] "lens" 0 = 0 := rfl
    norm_num [List.foldl, h1, h2, h3]
  rw [hdot]
  split
  · rfl
  · rw [zero_div]

theorem c2_recall :
    recall_score c2source c2target (build_corpus_context [c2target]) 1 = 3/20 := by
  unfold recall_score
  dsimp only
  rw [show tokenize c2source.title = [] from rfl]
  rw [show tokenize c2source.text = ["acme", "prime", "lens"] from rfl]
  rw [show term_frequencies ["acme", "prime", "lens"] =
    [("acme", 1), ("prime", 1), ("lens", 1)] from rfl]
  rw [show alGet (build_corpus_context [c2target]).body_tf c2target.url [] =
    [("zz", 1)] from rfl]
  rw [bm25_nil]
  rw [bm25_absent _ _ _ _ _ _ (by decide)]
  rw [c2_semantic]
  rw [show entity_overlap c2source c2target = 0 from rfl]
  rw [show compute_tag_overlap c2source c2target = ((1 : ℕ) : ℚ) / ((1 : ℕ) : ℚ) from rfl]
  rw [show language_factor c2source c2target = 1 from rfl]
  rw [show prefer_review_targets c2source c2target = 1 from rfl]
  norm_num

theorem c2_generate :
    generate_candidates c2source [c2target] (build_corpus_context [c2target]) c2config
      = [c2target] := by
  unfold generate_candidates
  dsimp only
  simp only [List.filterMap_cons, List.filterMap_nil]
  rw [show (if ([c2target] : List Page).length = 0 then 1
      else ([c2target] : List Page).length) = 1 from rfl]
  rw [if_neg (show ¬¬(business_filter c2source c2target = true) from by decide)]
  rw [c2_recall]
  rw [if_neg (show ¬((3 : ℝ)/20 ≤ 5/100) from by norm_num)]
  rw [show pySortDescBy (fun p : ℝ × Page => p.1) [((3 : ℝ)/20, c2target)]
      = [((3 : ℝ)/20, c2target)] from rfl]
  rw [show (c2config.max_candidates).getD 50 = (5 : ℤ) from rfl]
  rw [show pyTake [((3 : ℝ)/20, c2target)] (5 : ℤ) = [((3 : ℝ)/20, c2target)] from rfl]
  rfl

/-- Python slice `l[:n]` keeps a singleton when `n ≥ 1`. -/
theorem pyTake_one_le {α : Type} (x : α) (n : ℤ) (h : 1 ≤ n) : pyTake [x] n = [x] := by
  unfold pyTake
  rw [if_pos (show (0 : ℤ) ≤ n by omega)]
  exact List.take_of_length_le (by simp; omega)

/-- The greedy loop on a single fresh item under a positive budget
selects it. -/
theorem greedy_select_singleton (b : ℤ) (item : EvaluatedItem) (hb : 0 < b) :
    greedy_select b [item] ⟨[], [], [], []⟩
      = ⟨[suggestion_of item], [item.target.url],
         (suggestion_of item).anchors.map fun a => pyLower a.text, [item.role]⟩ := by
  rw [greedy_select]
  rw [if_neg (show ¬ (((⟨[], [], [], []⟩ : SelState).selected.length : ℤ) ≥ b) from by
    simp; omega)]
  rw [if_neg (show ¬ item.target.url ∈ (⟨[], [], [], []⟩ : SelState).used_targets from by
    simp)]
  rw [if_neg (show ¬ (conflicts_with_existing item.anchors
      (⟨[], [], [], []⟩ : SelState).used_anchor_texts = true) from by
    simp [conflicts_with_existing])]
  rw [greedy_select]
  simp

/-- `_evaluate_candidates` on a one-page candidate list whose page evaluates
to a single sibling item under a positive budget: the item is selected by the
greedy pass and the backfill phase changes nothing. -/
theorem evaluate_candidates_singleton (source t : Page) (context : CorpusContext)
    (config : EngineConfig) (item : EvaluatedItem)
    (h1 : evaluate_one source t context config = some item)
    (hrole : item.role = "sibling")
    (hb : 0 < max_links_for_page source config) :
    evaluate_candidates source [t] context config = ([suggestion_of item], [item]) := by
  unfold evaluate_candidates
  dsimp only
  simp only [List.filterMap_cons, List.filterMap_nil, h1]
  rw [show pySortDescBy (fun it : EvaluatedItem => it.score) [item] = [item] from rfl]
  rw [greedy_select_singleton _ _ hb]
  dsimp only
  unfold ensure_hub_and_sibling
  dsimp only
  rw [show List.filter (fun it : EvaluatedItem => decide (it.role = "parent")) [item]
      = [] from by simp [List.filter_cons, hrole]]
  rw [show backfill_insert (max_links_for_page source config) []
      = fun st => st from rfl]
  rw [hrole]
  rw [ite_self]
  rw [if_neg (show ¬¬("sibling" ∈ ["sibling"]) from by simp)]
  dsimp only
  rw [pyTake_one_le _ _ (by omega)]
  rw [show pySortDescBy (fun s : Suggestion => s.score) [suggestion_of item]
      = [suggestion_of item] from rfl]

theorem c2_suggest :
    suggest_links c2source [c2target] (some c2config) = [suggestion_of c2item] := by
  unfold suggest_links
  dsimp only
  rw [show (some c2config).getD load_config = c2config from rfl]
  rw [c2_generate]
  rw [evaluate_candidates_singleton c2source c2target (build_corpus_context [c2target])
    c2config c2item c2_evaluate_one rfl (by decide)]

/-- C2: REFUTED (code bug).  The claim demands `0 ≤ start < end ≤
len(source.text)` for every returned anchor, explicitly including source
texts whose lower-cased form differs in length from the original.  But
`extract_candidate_anchors` locates phrases in `text.lower()` and stores the
resulting offsets, and `str.lower` can lengthen the text (`'İ'` lowers to
two code points), so the stored `end` can exceed `len(source.text)`.
Concretely, for the 17-character source text `"İ acme prime lens"` and a
corpus page titled `"Acme Prime Lens"`, `suggest_links` returns exactly one
suggestion whose single anchor has `start = 3`, `end = 18 > 17`. -/
theorem C2_code_bug_anchor_bounds :
    ∃ s a, suggest_links c2source [c2target] (some c2config) = [s] ∧
      s.anchors = [a] ∧ a.start = 3 ∧ a.endPos = 18 ∧ c2source.text.length = 17 :=
  ⟨suggestion_of c2item, c2exact, c2_suggest, rfl, rfl, rfl, rfl⟩
